import Mathlib

/-!
# glarg: typed flag values and subcommand dispatch

A shallow embedding of `flag.go` (the delimited-list adapter `SliceFlag` and its
three slice targets) and of `subcommand.go` (the recursive dispatcher), followed
by theorems about them.

Conventions of the embedding:

* a Go string is its sequence of bytes;
* the functions of the Go standard library that the code calls (`strings.Split`,
  `strings.Join`, `(*flag.FlagSet).Parse`) are written out after the library's
  own source; the element parsers of the external packages (`uuid.Parse`,
  `url.Parse`) are parameters;
* objects reached through Go pointers live in an explicit heap, so that an
  adapter and the code that built it can look at the same target.
-/

set_option autoImplicit false

namespace Glarg

/-! ## Go strings and the `strings` functions used by `flag.go` -/

/-- A Go string: its bytes, each a natural number below 256. -/
abbrev GoString := List Nat

/-- The bytes of an ASCII string literal. -/
def str (s : String) : GoString := s.toList.map Char.toNat

/-- The constant `DEFAULT_DELIMITER = ","` of `flag.go`. -/
def DEFAULT_DELIMITER : GoString := [44]

/-- Go `strings.HasPrefix(s, prefix)`. -/
def HasPrefix (s pre : GoString) : Bool := pre.isPrefixOf s

/-- Go `strings.Index(s, substr)`: the index of the first instance of `substr`
in `s`; `none` stands for the result `-1`. -/
def Index : GoString → GoString → Option Nat
  | [], substr => if substr = [] then some 0 else none
  | c :: s, substr =>
    if HasPrefix (c :: s) substr then some 0 else (Index s substr).map (· + 1)

/-- The loop of Go `strings.Count` for a non-empty `substr`: every round looks for
the next instance and restarts behind it. A round consumes at least one byte, so
`len(s)` rounds are enough; the first argument bounds the rounds. -/
def Count.loop (substr : GoString) : Nat → GoString → Nat
  | 0, _ => 0
  | k + 1, s =>
    match Index s substr with
    | none => 0
    | some i => Count.loop substr k (s.drop (i + substr.length)) + 1

/-- Go `strings.Count(s, substr)`: the number of non-overlapping instances of
`substr` in `s` (for the empty `substr`, one more than the number of bytes: exact
for ASCII text, where Go counts runes). -/
def Count (s substr : GoString) : Nat :=
  if substr = [] then s.length + 1 else Count.loop substr s.length s

/-- The loop of Go `strings.genSplit` with `sepSave = 0`:
`for i < n { m := Index(s, sep); if m < 0 { break }; a[i] = s[:m]; s = s[m+len(sep):]; i++ }`
followed by `a[i] = s`. The first argument is the number of rounds left. -/
def genSplit.loop (sep : GoString) : Nat → GoString → List GoString
  | 0, s => [s]
  | n + 1, s =>
    match Index s sep with
    | none => [s]
    | some m => s.take m :: genSplit.loop sep n (s.drop (m + sep.length))

/-- Go `strings.explode(s, -1)`, reached by `Split` for an empty separator only:
one piece for each byte (exact for ASCII text; Go keeps the bytes of one UTF-8
sequence together). `SliceFlag` never passes an empty separator. -/
def explode (s : GoString) : List GoString := s.map fun b => [b]

/-- Go `strings.Split(s, sep)`, that is `genSplit(s, sep, 0, -1)`: with
`n = Count(s, sep) + 1`, capped at `len(s) + 1`, the loop runs `n - 1` rounds. -/
def Split (s sep : GoString) : List GoString :=
  if sep = [] then explode s
  else genSplit.loop sep (min (Count s sep + 1) (s.length + 1) - 1) s

/-- Go `strings.Join(elems, sep)`. -/
def Join : List GoString → GoString → GoString
  | [], _ => []
  | [x], _ => x
  | x :: y :: rest, sep => x ++ sep ++ Join (y :: rest) sep

/-! ## `flag.go`: slice targets and the delimited-list adapter -/

/-- A Go `error` value as returned by the element parsers. -/
structure Error where
  msg : GoString
deriving DecidableEq, Repr

/-- The external element types and their parse and format functions:
`uuid.Parse`, `uuid.UUID.String`, `uuid.Nil` for the identifier type `U`, and
`url.Parse`, `(*url.URL).String`, the zero `url.URL` for the URL type `L`. -/
structure Codec (U L : Type) where
  uuidParse : GoString → Except Error U
  uuidString : U → GoString
  uuidNil : U
  urlParse : GoString → Except Error L
  urlString : L → GoString
  urlZero : L

/-- The three implementations of the interface `SliceFlagTarget`. The field
`Target` is a pointer to a slice variable: `none` is the nil pointer, and
`some xs` a pointer to a variable that currently holds `xs` (the variable the
caller handed in, or the one `makeSafe` created). -/
inductive SliceFlagTarget (U L : Type) where
  | StringSliceFlagTarget (Target : Option (List GoString))
  | UUIDSliceFlagTarget (Target : Option (List U))
  | URLSliceFlagTarget (Target : Option (List L))
deriving DecidableEq, Repr

/-- The three `makeSafe` methods on the field `Target`: a nil pointer is
replaced by a pointer to a fresh empty slice. -/
def makeSafe {α : Type} : Option (List α) → Option (List α)
  | none => some []
  | some xs => some xs

namespace SliceFlagTarget

variable {U L : Type}

/-- The methods `Clear`: `makeSafe`, then `*self.Target = (*self.Target)[:0]`. -/
def Clear : SliceFlagTarget U L → SliceFlagTarget U L
  | StringSliceFlagTarget t => StringSliceFlagTarget ((makeSafe t).map fun xs => xs.take 0)
  | UUIDSliceFlagTarget t => UUIDSliceFlagTarget ((makeSafe t).map fun xs => xs.take 0)
  | URLSliceFlagTarget t => URLSliceFlagTarget ((makeSafe t).map fun xs => xs.take 0)

/-- The methods `Append`: the receiver after the call, and the returned error.
With no error the method returns its receiver, with an error it returns nil. The
string target never fails; the other two run after `makeSafe` the element parser
and append only a value that parsed. -/
def Append (c : Codec U L) : SliceFlagTarget U L → GoString → SliceFlagTarget U L × Option Error
  | StringSliceFlagTarget t, item =>
    (StringSliceFlagTarget ((makeSafe t).map fun xs => xs ++ [item]), none)
  | UUIDSliceFlagTarget t, item =>
    match c.uuidParse item with
    | .error err => (UUIDSliceFlagTarget (makeSafe t), some err)
    | .ok v => (UUIDSliceFlagTarget ((makeSafe t).map fun xs => xs ++ [v]), none)
  | URLSliceFlagTarget t, item =>
    match c.urlParse item with
    | .error err => (URLSliceFlagTarget (makeSafe t), some err)
    | .ok v => (URLSliceFlagTarget ((makeSafe t).map fun xs => xs ++ [v]), none)

/-- The methods `Join`: the receiver after `makeSafe`, and the items in their
string form joined by `del`. -/
def Join (c : Codec U L) : SliceFlagTarget U L → GoString → SliceFlagTarget U L × GoString
  | StringSliceFlagTarget t, del =>
    (StringSliceFlagTarget (makeSafe t), Glarg.Join ((makeSafe t).getD []) del)
  | UUIDSliceFlagTarget t, del =>
    (UUIDSliceFlagTarget (makeSafe t), Glarg.Join (((makeSafe t).getD []).map c.uuidString) del)
  | URLSliceFlagTarget t, del =>
    (URLSliceFlagTarget (makeSafe t), Glarg.Join (((makeSafe t).getD []).map c.urlString) del)

/-- The value of the `interface{}` that a `Get` method returns. -/
inductive Value (U L : Type) where
  | strings (xs : List GoString)
  | uuids (xs : List U)
  | urls (xs : List L)
deriving DecidableEq, Repr

/-- The methods `Get`: the receiver after `makeSafe`, and `*self.Target`. -/
def Get : SliceFlagTarget U L → SliceFlagTarget U L × Value U L
  | StringSliceFlagTarget t => (StringSliceFlagTarget (makeSafe t), .strings ((makeSafe t).getD []))
  | UUIDSliceFlagTarget t => (UUIDSliceFlagTarget (makeSafe t), .uuids ((makeSafe t).getD []))
  | URLSliceFlagTarget t => (URLSliceFlagTarget (makeSafe t), .urls ((makeSafe t).getD []))

end SliceFlagTarget

/-- The target objects allocated so far, by address; `next` is the first free
address. -/
structure Heap (U L : Type) where
  obj : Nat → SliceFlagTarget U L
  next : Nat

namespace Heap

variable {U L : Type}

/-- Store `o` at address `a`. -/
def write (h : Heap U L) (a : Nat) (o : SliceFlagTarget U L) : Heap U L :=
  { h with obj := fun b => if b = a then o else h.obj b }

/-- Allocate a new object `o`: the heap after, and the address of the object. -/
def alloc (h : Heap U L) (o : SliceFlagTarget U L) : Heap U L × Nat :=
  ({ obj := fun b => if b = h.next then o else h.obj b, next := h.next + 1 }, h.next)

end Heap

/-- The struct `SliceFlag`: the delimiter and the target, nil (`none`) or the
address of a target object. -/
structure SliceFlag where
  delimiter : GoString
  target : Option Nat
deriving DecidableEq, Repr

/-- The constructor `NewSliceFlag(v, sep)`. -/
def NewSliceFlag (v : Option Nat) (sep : GoString) : SliceFlag :=
  { delimiter := sep, target := v }

/-- What a call of `SliceFlag.Set` leaves behind: the heap, the adapter, the
returned error, and the items that were passed to `Append`, in call order. -/
structure SetResult (U L : Type) where
  heap : Heap U L
  flag : SliceFlag
  err : Option Error
  appended : List GoString

namespace SliceFlag

variable {U L : Type}

/-- The method `String` (value receiver): the heap after the call (the target's
`Join` runs `makeSafe`) and the rendered text. -/
def String (c : Codec U L) (h : Heap U L) (self : SliceFlag) : Heap U L × GoString :=
  match self.target with
  | none => (h, [])
  | some a =>
    if self.delimiter = [] then
      (h.write a ((h.obj a).Join c DEFAULT_DELIMITER).1, ((h.obj a).Join c DEFAULT_DELIMITER).2)
    else
      (h.write a ((h.obj a).Join c self.delimiter).1, ((h.obj a).Join c self.delimiter).2)

/-- The loop `for _, v := range pieces { self.target, err = self.target.Append(v); ... }`
of `Set`, for a target at address `a`: the first error ends the loop and leaves
`self.target` nil, since `Append` returns nil next to an error. -/
def Set.loop (c : Codec U L) (delimiter : GoString) (a : Nat) :
    Heap U L → List GoString → SetResult U L
  | h, [] => { heap := h, flag := { delimiter := delimiter, target := some a }, err := none,
               appended := [] }
  | h, v :: vs =>
    match ((h.obj a).Append c v).2 with
    | some err =>
      { heap := h.write a ((h.obj a).Append c v).1,
        flag := { delimiter := delimiter, target := none }, err := some err, appended := [v] }
    | none =>
      let r := Set.loop c delimiter a (h.write a ((h.obj a).Append c v).1) vs
      { r with appended := v :: r.appended }

/-- The method `Set` (pointer receiver). -/
def Set (c : Codec U L) (h : Heap U L) (self : SliceFlag) (s : GoString) : SetResult U L :=
  let pieces :=
    if self.delimiter = [] then Split s DEFAULT_DELIMITER else Split s self.delimiter
  let ha : Heap U L × Nat :=
    match self.target with
    | none => h.alloc (SliceFlagTarget.StringSliceFlagTarget (some []))
    | some a => (h, a)
  Set.loop c self.delimiter ha.2 (ha.1.write ha.2 (ha.1.obj ha.2).Clear) pieces

/-- The method `Get` (value receiver): the heap after the call and the returned
value. A nil target is replaced in the receiver's copy only, so the adapter
itself is as before. -/
def Get (h : Heap U L) (self : SliceFlag) : Heap U L × SliceFlagTarget.Value U L :=
  let ha : Heap U L × Nat :=
    match self.target with
    | none => h.alloc (SliceFlagTarget.StringSliceFlagTarget (some []))
    | some a => (h, a)
  (ha.1.write ha.2 (ha.1.obj ha.2).Get.1, (ha.1.obj ha.2).Get.2)

end SliceFlag

/-! ## `flag.go`: the scalar adapters `UUIDFlag` and `URLFlag` -/

/-- The storage cells of one element type that scalar adapters point to, by
address; `next` is the first free address. A cell is a variable of the caller
(`&foo`) or one that `Set` or `Get` created. -/
structure Cells (V : Type) where
  cell : Nat → V
  next : Nat

namespace Cells

variable {V : Type}

/-- Store `v` in the cell at address `p`. -/
def write (m : Cells V) (p : Nat) (v : V) : Cells V :=
  { m with cell := fun q => if q = p then v else m.cell q }

/-- A new cell holding `v`: the cells after, and the address of the new cell. -/
def alloc (m : Cells V) (v : V) : Cells V × Nat :=
  ({ cell := fun q => if q = m.next then v else m.cell q, next := m.next + 1 }, m.next)

end Cells

/-- What a call of `Set` on a scalar adapter of type `F` leaves behind: the cells,
the adapter and the returned error. -/
structure ScalarSetResult (V F : Type) where
  cells : Cells V
  flag : F
  err : Option Error

/-- The struct `UUIDFlag`: `ptr` is nil (`none`) or the address of a cell. -/
structure UUIDFlag where
  ptr : Option Nat
deriving DecidableEq, Repr

/-- The constructor `NewUUIDFlag(v)`. -/
def NewUUIDFlag (v : Option Nat) : UUIDFlag := { ptr := v }

namespace UUIDFlag

variable {U L : Type}

/-- The method `String` (value receiver). -/
def String (c : Codec U L) (m : Cells U) (self : UUIDFlag) : GoString :=
  match self.ptr with
  | none => c.uuidString c.uuidNil
  | some p => c.uuidString (m.cell p)

/-- The method `Set` (pointer receiver). A nil `ptr` is first replaced by a
pointer to a new zero identifier `uuid.UUID{}`, which is the value of `uuid.Nil`;
the cell is written only when the input parses. -/
def Set (c : Codec U L) (m : Cells U) (self : UUIDFlag) (s : GoString) :
    ScalarSetResult U UUIDFlag :=
  let mp : Cells U × Nat :=
    match self.ptr with
    | none => m.alloc c.uuidNil
    | some p => (m, p)
  match c.uuidParse s with
  | .error err => { cells := mp.1, flag := { ptr := some mp.2 }, err := some err }
  | .ok v => { cells := mp.1.write mp.2 v, flag := { ptr := some mp.2 }, err := none }

/-- The method `Get` (value receiver): the identifier, by value. -/
def Get (c : Codec U L) (m : Cells U) (self : UUIDFlag) : U :=
  match self.ptr with
  | none => c.uuidNil
  | some p => m.cell p

end UUIDFlag

/-- The struct `URLFlag`: `ptr` is nil (`none`) or the address of a cell. -/
structure URLFlag where
  ptr : Option Nat
deriving DecidableEq, Repr

/-- The constructor `NewURLFlag(v)`. -/
def NewURLFlag (v : Option Nat) : URLFlag := { ptr := v }

namespace URLFlag

variable {U L : Type}

/-- The method `String` (value receiver). -/
def String (c : Codec U L) (m : Cells L) (self : URLFlag) : GoString :=
  match self.ptr with
  | none => c.urlString c.urlZero
  | some p => c.urlString (m.cell p)

/-- The method `Set` (pointer receiver). A nil `ptr` is first replaced by a
pointer to a new zero `url.URL{}`; the parsed URL is copied into the cell
(`*self.ptr = *v`) only when the input parses. -/
def Set (c : Codec U L) (m : Cells L) (self : URLFlag) (s : GoString) :
    ScalarSetResult L URLFlag :=
  let mp : Cells L × Nat :=
    match self.ptr with
    | none => m.alloc c.urlZero
    | some p => (m, p)
  match c.urlParse s with
  | .error err => { cells := mp.1, flag := { ptr := some mp.2 }, err := some err }
  | .ok v => { cells := mp.1.write mp.2 v, flag := { ptr := some mp.2 }, err := none }

/-- The method `Get` (value receiver): a `*url.URL`, that is the cells after the
call and the address returned: the adapter's own `ptr`, or for a nil `ptr` the
address of a new zero `url.URL{}`. -/
def Get (c : Codec U L) (m : Cells L) (self : URLFlag) : Cells L × Nat :=
  match self.ptr with
  | none => m.alloc c.urlZero
  | some p => (m, p)

end URLFlag

/-! ## The `flag` package, as far as `subcommand.go` uses it -/

/-- A `*flag.FlagSet` made by `flag.NewFlagSet(name, flag.ExitOnError)`. Neither
command type of `subcommand.go` registers a flag, so the set of defined flags is
empty and the name is all that is kept. -/
structure FlagSet where
  name : GoString
deriving DecidableEq, Repr

/-- Go `flag.NewFlagSet(name, flag.ExitOnError)`. -/
def NewFlagSet (name : GoString) : FlagSet := { name := name }

/-- Go `(*FlagSet).Parse(arguments)` on a flag set with error handling
`ExitOnError` and no defined flag: `none` when `Parse` returns (its result is
nil), `some code` when it ends the process with `os.Exit(code)`.

After `parseOne`: an empty list, a first token shorter than two bytes or not
starting with `-`, and the token `--` end the parsing without error. Every other
first token is a flag; as no flag is defined, it is an error: bad syntax and an
undefined flag exit with status 2, and the undefined flags `-h` and `-help` print
the usage and exit with status 0 (since Go 1.15; with status 2 before). -/
def FlagSet.Parse (_f : FlagSet) (arguments : List GoString) : Option Int :=
  match arguments with
  | [] => none
  | s :: _ =>
    if s.length < 2 ∨ s.head? ≠ some 45 then none
    else if s[1]? = some 45 ∧ s.length = 2 then none
    else
      let numMinuses := if s[1]? = some 45 then 2 else 1
      let name := s.drop numMinuses
      if name.length = 0 ∨ name.head? = some 45 ∨ name.head? = some 61 then some 2
      else
        let name := name.take 1 ++ (name.drop 1).takeWhile (fun b => b ≠ 61)
        if name = str "help" ∨ name = str "h" then some 0 else some 2

/-! ## `subcommand.go`: command nodes and the dispatcher -/

/-- The two implementations of the interface `Subcommand` with their fields: the
struct `Subcommands`, a node with children, and the struct `SubcommandNoOp`. The
field `flagSet` is nil (`none`) until `SetupSubcommand` has run; `args` is the
scope stored by `SetArgs`. -/
inductive Subcommand where
  | Subcommands (flagSet : Option FlagSet) (args : List GoString) (Name : GoString)
      (Children : List Subcommand)
  | SubcommandNoOp (flagSet : Option FlagSet) (Name : GoString)
      (UnpackArgsError : Option Error) (InvalidFlagsBool : Bool) (ExecuteInt : Int)

/-- What a run writes to the log and which methods of the commands it calls, in
order. -/
inductive Event where
  /-- `SetArgs(args)` on the command `name`. -/
  | SetArgs (name : GoString) (args : List GoString)
  /-- The execution entry point `Execute` of the command `name` is entered. -/
  | Execute (name : GoString)
  /-- `FlagSet().Parse(arguments)` on the matched child `name`. -/
  | Parse (name : GoString) (arguments : List GoString)
  /-- `UnpackArgs()` on the matched child `name` returned `err`. -/
  | UnpackArgs (name : GoString) (err : Option Error)
  /-- `HasInvalidFlags()` on the matched child `name` returned `result`. -/
  | HasInvalidFlags (name : GoString) (result : Bool)
  /-- `FlagSet().PrintDefaults()` on the matched child `name`. -/
  | PrintDefaults (name : GoString)
  /-- The log line "Missing subcommand.". -/
  | LogMissing
  /-- The log line "Unknown subcommand provided: %s.". -/
  | LogUnknown (token : GoString)
  /-- The log line "Invalid arguments. %s". -/
  | LogInvalid (err : Error)
  /-- The lines of `Usage()`: name and description of every child. -/
  | Usage (lines : List (GoString × GoString))
deriving DecidableEq, Repr

/-- How a run ends: the function returns an integer, the process is ended by
`os.Exit` inside the flag parser, or the run panics on a nil `*flag.FlagSet`. -/
inductive Outcome where
  | returned (status : Int)
  | exited (code : Int)
  | panicked
deriving DecidableEq, Repr

/-- The end of a run and the events up to it. -/
structure Result where
  outcome : Outcome
  trace : List Event
deriving DecidableEq, Repr

/-- The same result, reached after the events `pre`. -/
def Result.after (pre : List Event) (r : Result) : Result :=
  { r with trace := pre ++ r.trace }

/-- The outcome of the loop that looks for the requested child. -/
inductive Lookup where
  | panicked
  | missing
  | found (subcmd : Subcommand) (flagSet : FlagSet)

namespace Subcommand

/-- The field `Name` of either struct. -/
def Name : Subcommand → GoString
  | Subcommands _ _ name _ => name
  | SubcommandNoOp _ name _ _ _ => name

/-- The methods `FlagSet`: the field `flagSet`. -/
def FlagSet : Subcommand → Option Glarg.FlagSet
  | Subcommands flagSet _ _ _ => flagSet
  | SubcommandNoOp flagSet _ _ _ _ => flagSet

mutual
/-- The methods `SetupSubcommand`: a new flag set named after the node, and for
`Subcommands` the same on every child, in place. -/
def SetupSubcommand : Subcommand → Subcommand
  | Subcommands _ args name children =>
    Subcommands (some (NewFlagSet name)) args name (SetupSubcommand.children children)
  | SubcommandNoOp _ name err invalid status =>
    SubcommandNoOp (some (NewFlagSet name)) name err invalid status
/-- The loop `for i, v := range self.Children { self.Children[i] = v.SetupSubcommand() }`. -/
def SetupSubcommand.children : List Subcommand → List Subcommand
  | [] => []
  | v :: rest => SetupSubcommand v :: SetupSubcommand.children rest
end

/-- The methods `HasInvalidFlags`: constantly false for `Subcommands`. -/
def HasInvalidFlags : Subcommand → Bool
  | Subcommands _ _ _ _ => false
  | SubcommandNoOp _ _ _ invalid _ => invalid

/-- The interface `ArgumentUnpacker`: `none` when the type has no method
`UnpackArgs` (`Subcommands`), else the error that `UnpackArgs` returns. -/
def UnpackArgs : Subcommand → Option (Option Error)
  | Subcommands _ _ _ _ => none
  | SubcommandNoOp _ _ err _ _ => some err

/-- The interface `ArgumentConsumer`: `none` when the type has no method
`SetArgs` (`SubcommandNoOp`), else the command after `SetArgs(args)`. -/
def SetArgs : Subcommand → List GoString → Option Subcommand
  | Subcommands flagSet _ name children, args => some (Subcommands flagSet args name children)
  | SubcommandNoOp _ _ _ _ _, _ => none

/-- The names `v.FlagSet().Name()` of the commands of a list; `none` when one of
them has a nil flag set, on which `Name()` panics. -/
def flagSetNames : List Subcommand → Option (List GoString)
  | [] => some []
  | v :: rest =>
    match v.FlagSet, flagSetNames rest with
    | some f, some names => some (f.name :: names)
    | _, _ => none

/-- The methods `Description`; `none` when `Subcommands.Description` panics on
the nil flag set of a child. -/
def Description : Subcommand → Option GoString
  | Subcommands _ _ _ children =>
    (flagSetNames children).map fun names => str "Subcommands: " ++ Join names (str ", ")
  | SubcommandNoOp _ _ _ _ _ => some (str "Not actually implemented.")

/-- The method `Subcommands.Usage` on the children of the node: the name and the
description of every child; `none` when a nil flag set makes it panic. -/
def Usage : List Subcommand → Option (List (GoString × GoString))
  | [] => some []
  | v :: rest =>
    match v.FlagSet, v.Description, Usage rest with
    | some f, some d, some lines => some ((f.name, d) :: lines)
    | _, _, _ => none

/-- The loop of `Subcommands.Execute` that compares `v.FlagSet().Name()` with
`myArgs[0]`, child by child, and stops at the first match. -/
def findChild (token : GoString) : List Subcommand → Lookup
  | [] => Lookup.missing
  | v :: rest =>
    match v.FlagSet with
    | none => Lookup.panicked
    | some f => if f.name = token then Lookup.found v f else findChild token rest

/-- The methods `Execute`. The first argument bounds the depth of the nested
calls of `Execute`; `none` means that the bound was too small. The context is
not used by either method but to pass it on. -/
def Execute : Nat → Subcommand → Option Result
  | 0, _ => none
  | _ + 1, SubcommandNoOp _ name _ _ status =>
    some { outcome := Outcome.returned status, trace := [Event.Execute name] }
  | fuel + 1, Subcommands _ args name children =>
    if args.length < 2 then
      match Usage children with
      | none => some { outcome := Outcome.panicked, trace := [Event.Execute name, Event.LogMissing] }
      | some lines =>
        some { outcome := Outcome.returned 1,
               trace := [Event.Execute name, Event.LogMissing, Event.Usage lines] }
    else
      let myArgs := args.drop 1
      match findChild (myArgs.headD []) children with
      | Lookup.panicked => some { outcome := Outcome.panicked, trace := [Event.Execute name] }
      | Lookup.missing =>
        match Usage children with
        | none =>
          some { outcome := Outcome.panicked,
                 trace := [Event.Execute name, Event.LogUnknown (myArgs.headD [])] }
        | some lines =>
          some { outcome := Outcome.returned 1,
                 trace := [Event.Execute name, Event.LogUnknown (myArgs.headD []),
                           Event.Usage lines] }
      | Lookup.found subcmd flagSet =>
        let parsed := [Event.Execute name, Event.Parse subcmd.Name (myArgs.drop 1)]
        match flagSet.Parse (myArgs.drop 1) with
        | some code => some { outcome := Outcome.exited code, trace := parsed }
        | none =>
          let unpacked :=
            match subcmd.UnpackArgs with
            | none => parsed
            | some err => parsed ++ [Event.UnpackArgs subcmd.Name err]
          match subcmd.UnpackArgs with
          | some (some err) =>
            some { outcome := Outcome.returned 1,
                   trace := unpacked ++ [Event.LogInvalid err, Event.PrintDefaults subcmd.Name] }
          | _ =>
            if subcmd.HasInvalidFlags then
              some { outcome := Outcome.returned 1,
                     trace := unpacked ++ [Event.HasInvalidFlags subcmd.Name true,
                                           Event.PrintDefaults subcmd.Name] }
            else
              match subcmd.SetArgs myArgs with
              | some consumer =>
                (Execute fuel consumer).map
                  (Result.after (unpacked ++ [Event.HasInvalidFlags subcmd.Name false,
                                              Event.SetArgs subcmd.Name myArgs]))
              | none =>
                (Execute fuel subcmd).map
                  (Result.after (unpacked ++ [Event.HasInvalidFlags subcmd.Name false]))

end Subcommand

/-- A matched child as the last part of `Subcommands.Execute` sees it through the
interfaces `Subcommand`, `ArgumentUnpacker` and `ArgumentConsumer`: what its
methods return in this dispatch step. This describes a child of any type that
implements `Subcommand`, the two structs of `subcommand.go` among them. -/
structure Matched where
  /-- The name of the child, used to label the events. -/
  Name : GoString
  /-- Is `none` when the child is no `ArgumentUnpacker`, else what `UnpackArgs()`
  returns. -/
  UnpackArgs : Option (Option Error)
  /-- What `HasInvalidFlags()` returns. -/
  HasInvalidFlags : Bool
  /-- Whether the child is an `ArgumentConsumer`. -/
  SetArgs : Bool
  /-- How `subcmd.Execute(ctx)` ends, after `SetArgs(myArgs)` when the child is an
  `ArgumentConsumer`; `none` when the bound on the nesting is reached. -/
  Execute : Option Result

/-- The part of `Subcommands.Execute` that follows the flag parsing of the matched
child `subcmd`: the unpacking step when `subcmd` is an `ArgumentUnpacker`, the
invalid-flags predicate, `SetArgs(myArgs)` when `subcmd` is an `ArgumentConsumer`,
and `return subcmd.Execute(ctx)`. -/
def Subcommand.Execute.gates (subcmd : Matched) (myArgs : List GoString) : Option Result :=
  let unpacked : List Event :=
    match subcmd.UnpackArgs with
    | none => []
    | some err => [Event.UnpackArgs subcmd.Name err]
  match subcmd.UnpackArgs with
  | some (some err) =>
    some { outcome := Outcome.returned 1,
           trace := unpacked ++ [Event.LogInvalid err, Event.PrintDefaults subcmd.Name] }
  | _ =>
    if subcmd.HasInvalidFlags then
      some { outcome := Outcome.returned 1,
             trace := unpacked ++ [Event.HasInvalidFlags subcmd.Name true,
                                   Event.PrintDefaults subcmd.Name] }
    else if subcmd.SetArgs then
      subcmd.Execute.map
        (Result.after (unpacked ++ [Event.HasInvalidFlags subcmd.Name false,
                                    Event.SetArgs subcmd.Name myArgs]))
    else
      subcmd.Execute.map
        (Result.after (unpacked ++ [Event.HasInvalidFlags subcmd.Name false]))

/-- A command of `subcommand.go` as a matched child: its methods, and its
`Execute` with the bound `fuel`, on the scope `myArgs` when it accepts one. -/
def Subcommand.view (fuel : Nat) (myArgs : List GoString) (v : Subcommand) : Matched :=
  { Name := v.Name
    UnpackArgs := v.UnpackArgs
    HasInvalidFlags := v.HasInvalidFlags
    SetArgs := (v.SetArgs myArgs).isSome
    Execute := Subcommand.Execute fuel ((v.SetArgs myArgs).getD v) }

/-- The function `Invoke(ctx, cmd, args)`: set the command up, hand it `args` when
it is an `ArgumentConsumer`, and return what its `Execute` returns. The nesting of
`Execute` is bounded by the number of tokens. The goroutine `handleInterupt`,
which only cancels the context, is left out here and described on its own below:
neither command type reads the context. -/
def Invoke (cmd : Subcommand) (args : List GoString) : Option Result :=
  let setupCmd := cmd.SetupSubcommand
  match setupCmd.SetArgs args with
  | some nested =>
    (nested.Execute (args.length + 1)).map (Result.after [Event.SetArgs setupCmd.Name args])
  | none => setupCmd.Execute (args.length + 1)

/-- The case that a `select` statement of `handleInterupt` takes: a signal was
received from `sigChan`, or `ctx.Done()` was ready. -/
inductive SelectCase where
  | sigChan
  | ctxDone
deriving DecidableEq, Repr

/-- The state of the goroutine `handleInterupt`: whether the function has
returned, and how often it has called `cancel()`. -/
structure Listener where
  returned : Bool
  cancels : Nat
deriving DecidableEq, Repr

/-- One round of `for { select { case <-sigChan: cancel(); case <-ctx.Done(): break } }`.
The `break` ends the `select` statement, not the `for` statement around it, and
the function has no `return`: after either case the loop goes on. -/
def handleInterupt.step (st : Listener) (taken : SelectCase) : Listener :=
  if st.returned then st
  else
    match taken with
    | SelectCase.sigChan => { st with cancels := st.cancels + 1 }
    | SelectCase.ctxDone => st

/-- The function `handleInterupt(ctx, cancel)` after the given cases have been
taken by its successive `select` statements. -/
def handleInterupt (taken : List SelectCase) : Listener :=
  taken.foldl handleInterupt.step { returned := false, cancels := 0 }

/-! ## Definitions used to state the theorems -/

/-- The delimiter that `String` and `Set` use: the adapter's delimiter, or the
comma when that delimiter is the empty string. -/
def effectiveDelimiter (d : GoString) : GoString :=
  if d = [] then DEFAULT_DELIMITER else d

/-- An element parser for examples: an item is accepted when it has exactly two
bytes, and its value is their sum. -/
def exampleCodec : Codec Nat Nat :=
  { uuidParse := fun s => if s.length = 2 then .ok s.sum else .error ⟨s⟩
    uuidString := fun n => [n]
    uuidNil := 0
    urlParse := fun s => if s.length = 2 then .ok s.sum else .error ⟨s⟩
    urlString := fun n => [n]
    urlZero := 0 }

/-- A heap for examples: every address holds a string target with a nil
`Target`, and nothing is allocated. -/
def exampleHeap : Heap Nat Nat :=
  { obj := fun _ => SliceFlagTarget.StringSliceFlagTarget none, next := 0 }

/-- The items of a target in their string form, in order; a target with a nil
`Target` has none. -/
def itemStrings {U L : Type} (c : Codec U L) : SliceFlagTarget U L → List GoString
  | SliceFlagTarget.StringSliceFlagTarget t => t.getD []
  | SliceFlagTarget.UUIDSliceFlagTarget t => (t.getD []).map c.uuidString
  | SliceFlagTarget.URLSliceFlagTarget t => (t.getD []).map c.urlString

/-- Cells for examples: every cell holds 0, and nothing is allocated. -/
def exampleCells : Cells Nat :=
  { cell := fun _ => 0, next := 0 }

/-- The names of the commands whose execution entry point was entered, in
order. -/
def executed : List Event → List GoString
  | [] => []
  | Event.Execute name :: rest => name :: executed rest
  | _ :: rest => executed rest

/-- The first child with the given name, which is the child that the dispatcher
selects once the tree is set up. -/
def firstNamed (token : GoString) (children : List Subcommand) : Option Subcommand :=
  children.find? fun v => decide (v.Name = token)

/-- The number of tokens in the scope that a command holds. -/
def scopeLength : Subcommand → Nat
  | Subcommand.Subcommands _ args _ _ => args.length
  | Subcommand.SubcommandNoOp _ _ _ _ _ => 0

/-- An event that reports a failed gate: an unpacking step that returned an error,
or an invalid-flags predicate that returned true. -/
def failedGate : Event → Bool
  | Event.UnpackArgs _ (some _) => true
  | Event.HasInvalidFlags _ true => true
  | _ => false

/-- A token that the flag parser takes for a flag: at least two bytes, the first
of them `-`, and not the token `--`. -/
def isFlagToken (s : GoString) : Bool :=
  decide (2 ≤ s.length) && decide (s.head? = some 45) && !decide (s = [45, 45])

mutual
/-- Every node of the tree, the root included, has a flag set, and its name is
the node's `Name`. -/
def isSetUp : Subcommand → Bool
  | Subcommand.Subcommands flagSet _ name children =>
    decide (flagSet = some (NewFlagSet name)) && isSetUp.children children
  | Subcommand.SubcommandNoOp flagSet name _ _ _ => decide (flagSet = some (NewFlagSet name))
/-- Every tree of the list is set up. -/
def isSetUp.children : List Subcommand → Bool
  | [] => true
  | v :: rest => isSetUp v && isSetUp.children rest
end

mutual
/-- The tree without its flag sets: the names, the children in their order, and
every other field are kept. -/
def stripFlagSets : Subcommand → Subcommand
  | Subcommand.Subcommands _ args name children =>
    Subcommand.Subcommands none args name (stripFlagSets.children children)
  | Subcommand.SubcommandNoOp _ name err invalid status =>
    Subcommand.SubcommandNoOp none name err invalid status
/-- The trees of the list without their flag sets. -/
def stripFlagSets.children : List Subcommand → List Subcommand
  | [] => []
  | v :: rest => stripFlagSets v :: stripFlagSets.children rest
end

/-- The commands whose execution entry point a run of the dispatcher would reach
below a node: `Selects node scope x` says that the dispatch steps that start at
the `Subcommands` node `node` with the scope `scope` select the command `x` as
matched child, directly or some levels down, each time as the first child with
the requested name, and that the flag parsing of every child matched on the
way, `x` included, returns. Only the gates of `x` then stand between the run
and the execution entry point of `x`. -/
inductive Selects : Subcommand → List GoString → Subcommand → Prop where
  | child (f : Option FlagSet) (old : List GoString) (name self token : GoString)
      (rest : List GoString) (children : List Subcommand) (x : Subcommand) :
      firstNamed token children = some x →
      (NewFlagSet token).Parse rest = none →
      Selects (Subcommand.Subcommands f old name children) (self :: token :: rest) x
  | deeper (f fc : Option FlagSet) (old oldc : List GoString) (name self token : GoString)
      (rest : List GoString) (children cchildren : List Subcommand) (x : Subcommand) :
      firstNamed token children = some (Subcommand.Subcommands fc oldc token cchildren) →
      (NewFlagSet token).Parse rest = none →
      Selects (Subcommand.Subcommands fc oldc token cchildren) (token :: rest) x →
      Selects (Subcommand.Subcommands f old name children) (self :: token :: rest) x

/-- A no-op command with the given name and execute status, for examples. -/
def exampleNoOp (name : GoString) (status : Int) : Subcommand :=
  Subcommand.SubcommandNoOp none name none false status

/-- The tree `root -> {A -> {X, Y}, B}` for examples. -/
def exampleTree : Subcommand :=
  Subcommand.Subcommands none [] (str "root")
    [Subcommand.Subcommands none [] (str "A") [exampleNoOp (str "X") 0, exampleNoOp (str "Y") 7],
     exampleNoOp (str "B") 0]

/-! ## Theorems: `flag.go` -/

section FlagTheorems

variable {U L : Type}

@[simp] theorem makeSafe_take_zero {α : Type} (t : Option (List α)) :
    (makeSafe t).map (fun xs => xs.take 0) = some [] := by
  cases t <;> rfl

@[simp] theorem Heap.obj_write_same (h : Heap U L) (a : Nat) (o : SliceFlagTarget U L) :
    (h.write a o).obj a = o := by
  simp [Heap.write]

theorem Heap.obj_write_of_ne (h : Heap U L) {a b : Nat} (o : SliceFlagTarget U L)
    (hne : b ≠ a) : (h.write a o).obj b = h.obj b := by
  simp [Heap.write, hne]

@[simp] theorem Heap.write_write (h : Heap U L) (a : Nat) (o o' : SliceFlagTarget U L) :
    (h.write a o).write a o' = h.write a o' := by
  simp only [Heap.write]
  congr 1
  funext b
  by_cases hb : b = a <;> simp [hb]

/-- The append loop on a string target never fails: it appends every piece. -/
theorem SliceFlag.Set.loop_string (c : Codec U L) (d : GoString) (a : Nat) :
    ∀ (pieces : List GoString) (h : Heap U L) (xs : List GoString),
      h.obj a = SliceFlagTarget.StringSliceFlagTarget (some xs) →
      (SliceFlag.Set.loop c d a h pieces).err = none ∧
      (SliceFlag.Set.loop c d a h pieces).flag = { delimiter := d, target := some a } ∧
      (SliceFlag.Set.loop c d a h pieces).heap.obj a =
        SliceFlagTarget.StringSliceFlagTarget (some (xs ++ pieces)) ∧
      (SliceFlag.Set.loop c d a h pieces).appended = pieces := by
  intro pieces
  induction pieces with
  | nil => intro h xs hx; simp [SliceFlag.Set.loop, hx]
  | cons v vs ih =>
    intro h xs hx
    have hs := ih (h.write a (SliceFlagTarget.StringSliceFlagTarget (some (xs ++ [v]))))
      (xs ++ [v]) (by simp)
    simp only [SliceFlag.Set.loop, hx, SliceFlagTarget.Append, makeSafe, Option.map_some']
    simpa using hs

/-- `Set` on a supplied string target: no error, the target holds the pieces of
the input, and the adapter keeps its target. -/
theorem SliceFlag.Set_string_supplied (c : Codec U L) (h : Heap U L) (d s : GoString)
    (a : Nat) (t : Option (List GoString))
    (ht : h.obj a = SliceFlagTarget.StringSliceFlagTarget t) :
    (SliceFlag.Set c h { delimiter := d, target := some a } s).err = none ∧
    (SliceFlag.Set c h { delimiter := d, target := some a } s).heap.obj a =
      SliceFlagTarget.StringSliceFlagTarget (some (Split s (effectiveDelimiter d))) ∧
    (SliceFlag.Set c h { delimiter := d, target := some a } s).flag.target = some a := by
  have hp : (if d = [] then Split s DEFAULT_DELIMITER else Split s d)
      = Split s (effectiveDelimiter d) := by
    unfold effectiveDelimiter; split <;> rfl
  have hs := SliceFlag.Set.loop_string c d a (Split s (effectiveDelimiter d))
    (h.write a (SliceFlagTarget.StringSliceFlagTarget (some []))) [] (by simp)
  simp only [SliceFlag.Set, hp, ht, SliceFlagTarget.Clear, makeSafe_take_zero]
  obtain ⟨h1, h2, h3, -⟩ := hs
  exact ⟨h1, by simpa using h3, by rw [h2]⟩

/-- `Set` on an adapter without target: a string target is created at the first
free address and receives the pieces of the input. -/
theorem SliceFlag.Set_string_lazy (c : Codec U L) (h : Heap U L) (d s : GoString) :
    (SliceFlag.Set c h { delimiter := d, target := none } s).err = none ∧
    (SliceFlag.Set c h { delimiter := d, target := none } s).flag.target = some h.next ∧
    (SliceFlag.Set c h { delimiter := d, target := none } s).heap.obj h.next =
      SliceFlagTarget.StringSliceFlagTarget (some (Split s (effectiveDelimiter d))) := by
  have hp : (if d = [] then Split s DEFAULT_DELIMITER else Split s d)
      = Split s (effectiveDelimiter d) := by
    unfold effectiveDelimiter; split <;> rfl
  have hs := SliceFlag.Set.loop_string c d h.next (Split s (effectiveDelimiter d))
    ((h.alloc (SliceFlagTarget.StringSliceFlagTarget (some []))).1.write h.next
      (SliceFlagTarget.StringSliceFlagTarget (some []))) [] (by simp)
  simp only [SliceFlag.Set, hp, Heap.alloc, SliceFlagTarget.Clear, makeSafe_take_zero, if_true]
  simp only [Heap.alloc] at hs
  obtain ⟨h1, h2, h3, -⟩ := hs
  exact ⟨h1, by rw [h2], by simpa using h3⟩

theorem HasPrefix_iff (s p : GoString) : HasPrefix s p = true ↔ p <+: s := by
  simp [HasPrefix]

/-- An instance found by `Index` fits into the string. -/
theorem Index_add_length_le : ∀ (s d : GoString) (m : Nat),
    Index s d = some m → m + d.length ≤ s.length
  | [], d, m, h => by
    by_cases hd : d = []
    · simp [Index, hd] at h; subst h; simp [hd]
    · simp [Index, hd] at h
  | c :: s, d, m, h => by
    by_cases hp : HasPrefix (c :: s) d = true
    · simp only [Index, hp, if_true, Option.some.injEq] at h
      subst h
      have := ((HasPrefix_iff _ _).1 hp).length_le
      simpa using this
    · simp only [Index, hp] at h
      cases hi : Index s d with
      | none => simp [hi] at h
      | some m' =>
        simp [hi] at h
        subst h
        have := Index_add_length_le s d m' hi
        simp only [List.length_cons]
        omega

/-- The first instance of `d` in `s` is also the first instance in `s ++ r`. -/
theorem Index_append_of_some : ∀ (s d r : GoString) (m : Nat),
    Index s d = some m → Index (s ++ r) d = some m
  | [], d, r, m, h => by
    by_cases hd : d = []
    · simp [Index, hd] at h
      subst h; subst hd
      cases r <;> simp [Index, HasPrefix]
    · simp [Index, hd] at h
  | c :: s, d, r, m, h => by
    by_cases hp : HasPrefix (c :: s) d = true
    · simp only [Index, hp, if_true, Option.some.injEq] at h
      subst h
      have h1 : d <+: (c :: s) ++ r := ((HasPrefix_iff _ _).1 hp).trans (List.prefix_append _ _)
      have h2 : HasPrefix (c :: (s ++ r)) d = true := (HasPrefix_iff _ _).2 (by simpa using h1)
      simp [Index, h2]
    · simp only [Index, hp] at h
      cases hi : Index s d with
      | none => simp [hi] at h
      | some m' =>
        simp [hi] at h
        subst h
        have hl := Index_add_length_le s d m' hi
        have h2 : ¬ HasPrefix (c :: (s ++ r)) d = true := by
          intro hq
          have hq' : d <+: (c :: s) ++ r := by simpa using (HasPrefix_iff _ _).1 hq
          have : d <+: c :: s :=
            List.prefix_of_prefix_length_le hq' (List.prefix_append _ _) (by simp; omega)
          exact hp ((HasPrefix_iff _ _).2 this)
        simp [Index, h2, Index_append_of_some s d r m' hi]

theorem Count.loop_le (d : GoString) : ∀ (k : Nat) (s : GoString), Count.loop d k s ≤ k
  | 0, _ => by simp [Count.loop]
  | k + 1, s => by
    cases hi : Index s d with
    | none => simp [Count.loop, hi]
    | some i =>
      have := Count.loop_le d k (s.drop (i + d.length))
      simp [Count.loop, hi]
      omega

/-- With as many rounds as `Count` finds instances, the split loop does what it
does with `k` rounds, for every `k` that is at least the length of the string. -/
theorem genSplit.loop_count (d : GoString) (hd : d ≠ []) : ∀ (k : Nat) (s : GoString),
    s.length ≤ k → genSplit.loop d (Count.loop d k s) s = genSplit.loop d k s
  | 0, s, _ => by simp [Count.loop]
  | k + 1, s, hk => by
    cases hi : Index s d with
    | none => simp [Count.loop, genSplit.loop, hi]
    | some i =>
      have hl := Index_add_length_le s d i hi
      have hdl : 0 < d.length := List.length_pos.2 hd
      have := genSplit.loop_count d hd k (s.drop (i + d.length)) (by simp; omega)
      simp [Count.loop, genSplit.loop, hi, this]

theorem Split_eq_loop (s d : GoString) (hd : d ≠ []) :
    Split s d = genSplit.loop d s.length s := by
  have h1 := Count.loop_le d s.length s
  have h2 := genSplit.loop_count d hd s.length s (le_refl _)
  simp only [Split, hd, if_false, Count]
  rw [Nat.min_eq_left (by omega), Nat.add_sub_cancel, h2]

theorem effectiveDelimiter_ne_nil (d : GoString) : effectiveDelimiter d ≠ [] := by
  unfold effectiveDelimiter
  split
  · simp [DEFAULT_DELIMITER]
  · assumption

/-- Splitting a joined list gives the list back, when no item holds the
separator and the first instance of the separator in an item followed by the
separator is the one that follows it. -/
theorem genSplit.loop_Join (d : GoString) (hd : d ≠ []) : ∀ (xs : List GoString) (k : Nat),
    xs ≠ [] → (Join xs d).length ≤ k →
    (∀ x ∈ xs, Index x d = none) →
    (∀ x ∈ xs.dropLast, Index (x ++ d) d = some x.length) →
    genSplit.loop d k (Join xs d) = xs
  | [], _, h, _, _, _ => absurd rfl h
  | [x], k, _, _, hf, _ => by
    have hx : Index x d = none := hf x (by simp)
    cases k <;> simp [Join, genSplit.loop, hx]
  | x :: y :: rest, k, _, hk, hf, hs => by
    have hdl : 0 < d.length := List.length_pos.2 hd
    have hi : Index (x ++ d ++ Join (y :: rest) d) d = some x.length :=
      Index_append_of_some _ _ _ _ (hs x (by simp [List.dropLast]))
    simp only [Join, List.length_append] at hk
    obtain ⟨k, rfl⟩ : ∃ k', k = k' + 1 := ⟨k - 1, by omega⟩
    have ih := genSplit.loop_Join d hd (y :: rest) k (by simp) (by omega)
      (fun z hz => hf z (List.mem_cons_of_mem _ hz))
      (fun z hz => hs z (by simp only [List.dropLast]; exact List.mem_cons_of_mem _ hz))
    have ht : (x ++ d ++ Join (y :: rest) d).take x.length = x := by
      rw [List.append_assoc, List.take_left]
    have hdr : (x ++ d ++ Join (y :: rest) d).drop (x.length + d.length) = Join (y :: rest) d := by
      rw [← List.length_append, List.drop_left]
    simp only [Join, genSplit.loop, hi, ht, hdr, ih]

/-- Claim C1. `SliceFlag.Set(s)` on a string-backed target returns no error and
leaves the target holding exactly the pieces of `s` split on the effective
delimiter, in order, whatever the delimiter, the input and the prior content:
both for a supplied string target at address `a` (with any `Target`, nil
included) and for the string target that `Set` creates when the adapter has
none. The adapter ends up pointing at that target. -/
theorem C1_set_string_holds_split_pieces (c : Codec U L) (h : Heap U L) (d s : GoString) :
    (∀ (a : Nat) (t : Option (List GoString)),
      h.obj a = SliceFlagTarget.StringSliceFlagTarget t →
      (SliceFlag.Set c h (NewSliceFlag (some a) d) s).err = none ∧
      (SliceFlag.Set c h (NewSliceFlag (some a) d) s).heap.obj a =
        SliceFlagTarget.StringSliceFlagTarget (some (Split s (effectiveDelimiter d))) ∧
      (SliceFlag.Set c h (NewSliceFlag (some a) d) s).flag.target = some a) ∧
    ((SliceFlag.Set c h (NewSliceFlag none d) s).err = none ∧
      (SliceFlag.Set c h (NewSliceFlag none d) s).flag.target = some h.next ∧
      (SliceFlag.Set c h (NewSliceFlag none d) s).heap.obj h.next =
        SliceFlagTarget.StringSliceFlagTarget (some (Split s (effectiveDelimiter d)))) :=
  ⟨fun a t ht => SliceFlag.Set_string_supplied c h d s a t ht, SliceFlag.Set_string_lazy c h d s⟩

/-- Claim C1 at a concrete input: a supplied string target holding `["old"]`,
delimiter `";"`, input `"a;b"`. -/
theorem C1_set_string_holds_split_pieces_witness :
    (SliceFlag.Set exampleCodec
        (exampleHeap.write 0 (SliceFlagTarget.StringSliceFlagTarget (some [str "old"])))
        (NewSliceFlag (some 0) (str ";")) (str "a;b")).err = none ∧
    (SliceFlag.Set exampleCodec
        (exampleHeap.write 0 (SliceFlagTarget.StringSliceFlagTarget (some [str "old"])))
        (NewSliceFlag (some 0) (str ";")) (str "a;b")).heap.obj 0 =
      SliceFlagTarget.StringSliceFlagTarget (some (Split (str "a;b") (effectiveDelimiter (str ";")))) ∧
    (SliceFlag.Set exampleCodec
        (exampleHeap.write 0 (SliceFlagTarget.StringSliceFlagTarget (some [str "old"])))
        (NewSliceFlag (some 0) (str ";")) (str "a;b")).flag.target = some 0 :=
  (C1_set_string_holds_split_pieces exampleCodec
    (exampleHeap.write 0 (SliceFlagTarget.StringSliceFlagTarget (some [str "old"])))
    (str ";") (str "a;b")).1 0 (some [str "old"]) (by decide)

/-- Claim C2 as stated fails for a delimiter of more than one byte: the items
`["a", "x"]` hold no `"aa"`, they render with the delimiter `"aa"` as `"aaax"`,
and parsing that text with the same delimiter leaves `["", "ax"]` in the target,
because the first instance of `"aa"` in the text starts inside the first item. -/
theorem C2_round_trip_counterexample :
    [str "a", str "x"] ≠ [] ∧
    (∀ x ∈ [str "a", str "x"], Index x (effectiveDelimiter (str "aa")) = none) ∧
    (SliceFlag.String exampleCodec
      (exampleHeap.write 0 (SliceFlagTarget.StringSliceFlagTarget (some [str "a", str "x"])))
      (NewSliceFlag (some 0) (str "aa"))).2 = str "aaax" ∧
    (SliceFlag.Set exampleCodec
      (SliceFlag.String exampleCodec
        (exampleHeap.write 0 (SliceFlagTarget.StringSliceFlagTarget (some [str "a", str "x"])))
        (NewSliceFlag (some 0) (str "aa"))).1
      (NewSliceFlag (some 0) (str "aa"))
      (SliceFlag.String exampleCodec
        (exampleHeap.write 0 (SliceFlagTarget.StringSliceFlagTarget (some [str "a", str "x"])))
        (NewSliceFlag (some 0) (str "aa"))).2).heap.obj 0 =
      SliceFlagTarget.StringSliceFlagTarget (some [str "", str "ax"]) ∧
    SliceFlagTarget.StringSliceFlagTarget (U := Nat) (L := Nat) (some [str "", str "ax"]) ≠
      SliceFlagTarget.StringSliceFlagTarget (some [str "a", str "x"]) := by
  decide

/-- Claim C2, amended. For every delimiter `d` and every non-empty list of
string items, none of which holds the effective delimiter, and such that in
every item but the last the effective delimiter does not start before the end
of the item when the delimiter is written behind it (`Index(item + d, d)` is
`len(item)`): rendering a string-backed list that holds the items with `String`
and parsing the rendered text with `Set` and the same `d` returns no error and
leaves the target holding exactly those items. -/
theorem C2_round_trip_amended (c : Codec U L) (h : Heap U L) (d : GoString) (a : Nat)
    (items : List GoString)
    (hobj : h.obj a = SliceFlagTarget.StringSliceFlagTarget (some items))
    (hne : items ≠ [])
    (hfree : ∀ x ∈ items, Index x (effectiveDelimiter d) = none)
    (hedge : ∀ x ∈ items.dropLast,
      Index (x ++ effectiveDelimiter d) (effectiveDelimiter d) = some x.length) :
    (SliceFlag.Set c (SliceFlag.String c h (NewSliceFlag (some a) d)).1
      (NewSliceFlag (some a) d) (SliceFlag.String c h (NewSliceFlag (some a) d)).2).err = none ∧
    (SliceFlag.Set c (SliceFlag.String c h (NewSliceFlag (some a) d)).1
      (NewSliceFlag (some a) d) (SliceFlag.String c h (NewSliceFlag (some a) d)).2).heap.obj a =
      SliceFlagTarget.StringSliceFlagTarget (some items) := by
  have hd := effectiveDelimiter_ne_nil d
  have hr : (SliceFlag.String c h (NewSliceFlag (some a) d)).2
      = Join items (effectiveDelimiter d) := by
    unfold effectiveDelimiter
    simp only [SliceFlag.String, NewSliceFlag, hobj, SliceFlagTarget.Join, makeSafe,
      Option.getD_some]
    split <;> rfl
  have hh : (SliceFlag.String c h (NewSliceFlag (some a) d)).1.obj a
      = SliceFlagTarget.StringSliceFlagTarget (some items) := by
    simp only [SliceFlag.String, NewSliceFlag, hobj, SliceFlagTarget.Join, makeSafe]
    split <;> simp
  have hs := SliceFlag.Set_string_supplied c (SliceFlag.String c h (NewSliceFlag (some a) d)).1
    d (SliceFlag.String c h (NewSliceFlag (some a) d)).2 a (some items) hh
  have hsplit : Split (Join items (effectiveDelimiter d)) (effectiveDelimiter d) = items := by
    rw [Split_eq_loop _ _ hd]
    exact genSplit.loop_Join _ hd items _ hne (le_refl _) hfree hedge
  rw [hr, hsplit] at hs
  rw [hr]
  exact ⟨hs.1, hs.2.1⟩

/-- Claim C2, amended, at a concrete input: the items `["a:", "b", ""]` and the
delimiter `";"`. -/
theorem C2_round_trip_amended_witness :
    (SliceFlag.Set exampleCodec
      (SliceFlag.String exampleCodec
        (exampleHeap.write 0
          (SliceFlagTarget.StringSliceFlagTarget (some [str "a:", str "b", str ""])))
        (NewSliceFlag (some 0) (str ";"))).1
      (NewSliceFlag (some 0) (str ";"))
      (SliceFlag.String exampleCodec
        (exampleHeap.write 0
          (SliceFlagTarget.StringSliceFlagTarget (some [str "a:", str "b", str ""])))
        (NewSliceFlag (some 0) (str ";"))).2).err = none ∧
    (SliceFlag.Set exampleCodec
      (SliceFlag.String exampleCodec
        (exampleHeap.write 0
          (SliceFlagTarget.StringSliceFlagTarget (some [str "a:", str "b", str ""])))
        (NewSliceFlag (some 0) (str ";"))).1
      (NewSliceFlag (some 0) (str ";"))
      (SliceFlag.String exampleCodec
        (exampleHeap.write 0
          (SliceFlagTarget.StringSliceFlagTarget (some [str "a:", str "b", str ""])))
        (NewSliceFlag (some 0) (str ";"))).2).heap.obj 0 =
      SliceFlagTarget.StringSliceFlagTarget (some [str "a:", str "b", str ""]) :=
  C2_round_trip_amended exampleCodec
    (exampleHeap.write 0
      (SliceFlagTarget.StringSliceFlagTarget (some [str "a:", str "b", str ""])))
    (str ";") 0 [str "a:", str "b", str ""] (by decide) (by decide) (by decide) (by decide)

/-- The append loop on an identifier target: the pieces before the first
rejected one are appended, the rejected piece ends the loop with its error and
detaches the adapter, and no later piece is passed to `Append`. -/
theorem SliceFlag.Set.loop_uuid (c : Codec U L) (d : GoString) (a : Nat) (bad : GoString)
    (post : List GoString) (e : Error) (hbad : c.uuidParse bad = .error e) :
    ∀ (pre : List GoString) (vals : List U),
      List.Forall₂ (fun p v => c.uuidParse p = .ok v) pre vals →
      ∀ (h : Heap U L) (xs : List U), h.obj a = SliceFlagTarget.UUIDSliceFlagTarget (some xs) →
      (SliceFlag.Set.loop c d a h (pre ++ bad :: post)).err = some e ∧
      (SliceFlag.Set.loop c d a h (pre ++ bad :: post)).appended = pre ++ [bad] ∧
      (SliceFlag.Set.loop c d a h (pre ++ bad :: post)).heap.obj a =
        SliceFlagTarget.UUIDSliceFlagTarget (some (xs ++ vals)) ∧
      (SliceFlag.Set.loop c d a h (pre ++ bad :: post)).flag.target = none := by
  intro pre vals hall
  induction hall with
  | nil =>
    intro h xs hx
    simp [SliceFlag.Set.loop, hx, SliceFlagTarget.Append, hbad, makeSafe]
  | @cons p v ps vs hp _ ih =>
    intro h xs hx
    have hs := ih (h.write a (SliceFlagTarget.UUIDSliceFlagTarget (some (xs ++ [v]))))
      (xs ++ [v]) (by simp)
    simp only [List.cons_append, SliceFlag.Set.loop, hx, SliceFlagTarget.Append, hp, makeSafe,
      Option.map_some']
    simpa using hs

/-- The append loop on a URL target, as `SliceFlag.Set.loop_uuid`. -/
theorem SliceFlag.Set.loop_url (c : Codec U L) (d : GoString) (a : Nat) (bad : GoString)
    (post : List GoString) (e : Error) (hbad : c.urlParse bad = .error e) :
    ∀ (pre : List GoString) (vals : List L),
      List.Forall₂ (fun p v => c.urlParse p = .ok v) pre vals →
      ∀ (h : Heap U L) (xs : List L), h.obj a = SliceFlagTarget.URLSliceFlagTarget (some xs) →
      (SliceFlag.Set.loop c d a h (pre ++ bad :: post)).err = some e ∧
      (SliceFlag.Set.loop c d a h (pre ++ bad :: post)).appended = pre ++ [bad] ∧
      (SliceFlag.Set.loop c d a h (pre ++ bad :: post)).heap.obj a =
        SliceFlagTarget.URLSliceFlagTarget (some (xs ++ vals)) ∧
      (SliceFlag.Set.loop c d a h (pre ++ bad :: post)).flag.target = none := by
  intro pre vals hall
  induction hall with
  | nil =>
    intro h xs hx
    simp [SliceFlag.Set.loop, hx, SliceFlagTarget.Append, hbad, makeSafe]
  | @cons p v ps vs hp _ ih =>
    intro h xs hx
    have hs := ih (h.write a (SliceFlagTarget.URLSliceFlagTarget (some (xs ++ [v]))))
      (xs ++ [v]) (by simp)
    simp only [List.cons_append, SliceFlag.Set.loop, hx, SliceFlagTarget.Append, hp, makeSafe,
      Option.map_some']
    simpa using hs

theorem SliceFlag.Set_pieces (d s : GoString) :
    (if d = [] then Split s DEFAULT_DELIMITER else Split s d) = Split s (effectiveDelimiter d) := by
  unfold effectiveDelimiter; split <;> rfl

/-- Claim C3. Let the pieces of the input, split on the effective delimiter, be
`pre ++ bad :: post`, where the element parser accepts every piece of `pre`
(with the values `vals`) and rejects `bad` with the error `e`: the first rejected
piece is at position `k = len(pre) + 1`. Then `SliceFlag.Set` on an identifier
target, and likewise on a URL target, whatever the target held before, returns
`e`, passes to `Append` exactly the pieces `pre` and `bad` (none of `post`), and
leaves the target's collection holding exactly `vals`, in order. -/
theorem C3_set_stops_at_first_rejected_piece (c : Codec U L) (h : Heap U L) (d s : GoString)
    (a : Nat) (pre post : List GoString) (bad : GoString) (e : Error)
    (hsplit : Split s (effectiveDelimiter d) = pre ++ bad :: post) :
    (∀ (t : Option (List U)) (vals : List U),
      h.obj a = SliceFlagTarget.UUIDSliceFlagTarget t →
      List.Forall₂ (fun p v => c.uuidParse p = .ok v) pre vals →
      c.uuidParse bad = .error e →
      (SliceFlag.Set c h (NewSliceFlag (some a) d) s).err = some e ∧
      (SliceFlag.Set c h (NewSliceFlag (some a) d) s).appended = pre ++ [bad] ∧
      (SliceFlag.Set c h (NewSliceFlag (some a) d) s).heap.obj a =
        SliceFlagTarget.UUIDSliceFlagTarget (some vals)) ∧
    (∀ (t : Option (List L)) (vals : List L),
      h.obj a = SliceFlagTarget.URLSliceFlagTarget t →
      List.Forall₂ (fun p v => c.urlParse p = .ok v) pre vals →
      c.urlParse bad = .error e →
      (SliceFlag.Set c h (NewSliceFlag (some a) d) s).err = some e ∧
      (SliceFlag.Set c h (NewSliceFlag (some a) d) s).appended = pre ++ [bad] ∧
      (SliceFlag.Set c h (NewSliceFlag (some a) d) s).heap.obj a =
        SliceFlagTarget.URLSliceFlagTarget (some vals)) := by
  refine ⟨fun t vals ht hall hbad => ?_, fun t vals ht hall hbad => ?_⟩
  · have hs := SliceFlag.Set.loop_uuid c d a bad post e hbad pre vals hall
      (h.write a (SliceFlagTarget.UUIDSliceFlagTarget (some []))) [] (by simp)
    simp only [SliceFlag.Set, NewSliceFlag, SliceFlag.Set_pieces, hsplit, ht,
      SliceFlagTarget.Clear, makeSafe_take_zero]
    exact ⟨hs.1, hs.2.1, by simpa using hs.2.2.1⟩
  · have hs := SliceFlag.Set.loop_url c d a bad post e hbad pre vals hall
      (h.write a (SliceFlagTarget.URLSliceFlagTarget (some []))) [] (by simp)
    simp only [SliceFlag.Set, NewSliceFlag, SliceFlag.Set_pieces, hsplit, ht,
      SliceFlagTarget.Clear, makeSafe_take_zero]
    exact ⟨hs.1, hs.2.1, by simpa using hs.2.2.1⟩

/-- Claim C3 at a concrete input: an identifier target holding `[5]`, the input
`"ab,cd,e,fg"` and the parser that accepts two-byte items: the third piece is
rejected, and the target is left with the values of `"ab"` and `"cd"`. -/
theorem C3_set_stops_at_first_rejected_piece_witness :
    (SliceFlag.Set exampleCodec
      (exampleHeap.write 0 (SliceFlagTarget.UUIDSliceFlagTarget (some [5])))
      (NewSliceFlag (some 0) (str "")) (str "ab,cd,e,fg")).err = some ⟨str "e"⟩ ∧
    (SliceFlag.Set exampleCodec
      (exampleHeap.write 0 (SliceFlagTarget.UUIDSliceFlagTarget (some [5])))
      (NewSliceFlag (some 0) (str "")) (str "ab,cd,e,fg")).appended
      = [str "ab", str "cd"] ++ [str "e"] ∧
    (SliceFlag.Set exampleCodec
      (exampleHeap.write 0 (SliceFlagTarget.UUIDSliceFlagTarget (some [5])))
      (NewSliceFlag (some 0) (str "")) (str "ab,cd,e,fg")).heap.obj 0 =
      SliceFlagTarget.UUIDSliceFlagTarget (some [195, 199]) :=
  (C3_set_stops_at_first_rejected_piece exampleCodec
    (exampleHeap.write 0 (SliceFlagTarget.UUIDSliceFlagTarget (some [5])))
    (str "") (str "ab,cd,e,fg") 0 [str "ab", str "cd"] [str "fg"] (str "e") ⟨str "e"⟩
    (by decide)).1 (some [5]) [195, 199] (by decide)
    (List.Forall₂.cons rfl (List.Forall₂.cons rfl List.Forall₂.nil)) rfl

/-- Claim C11. For every `UUIDFlag` and every `URLFlag`, with or without a cell,
and every input that the element parser rejects with the error `e`: `Set` returns
`e`, and `Get` and `String` after the call read what they read before it (for the
URL, `Get` returns a pointer and the value read is the one it points to). For an
adapter with a cell, the cells and the adapter are exactly as before, so the
caller's cell is unchanged. -/
theorem C11_rejected_scalar_set_keeps_value (c : Codec U L) (s : GoString) (e : Error) :
    (∀ (m : Cells U) (self : UUIDFlag), c.uuidParse s = .error e →
      (UUIDFlag.Set c m self s).err = some e ∧
      UUIDFlag.Get c (UUIDFlag.Set c m self s).cells (UUIDFlag.Set c m self s).flag
        = UUIDFlag.Get c m self ∧
      UUIDFlag.String c (UUIDFlag.Set c m self s).cells (UUIDFlag.Set c m self s).flag
        = UUIDFlag.String c m self ∧
      (∀ p, self.ptr = some p →
        (UUIDFlag.Set c m self s).cells = m ∧ (UUIDFlag.Set c m self s).flag = self)) ∧
    (∀ (m : Cells L) (self : URLFlag), c.urlParse s = .error e →
      (URLFlag.Set c m self s).err = some e ∧
      (URLFlag.Get c (URLFlag.Set c m self s).cells (URLFlag.Set c m self s).flag).1.cell
          (URLFlag.Get c (URLFlag.Set c m self s).cells (URLFlag.Set c m self s).flag).2
        = (URLFlag.Get c m self).1.cell (URLFlag.Get c m self).2 ∧
      URLFlag.String c (URLFlag.Set c m self s).cells (URLFlag.Set c m self s).flag
        = URLFlag.String c m self ∧
      (∀ p, self.ptr = some p →
        (URLFlag.Set c m self s).cells = m ∧ (URLFlag.Set c m self s).flag = self)) := by
  constructor
  · intro m self hbad
    obtain ⟨ptr⟩ := self
    cases ptr with
    | none => simp [UUIDFlag.Set, UUIDFlag.Get, UUIDFlag.String, hbad, Cells.alloc]
    | some p => simp [UUIDFlag.Set, UUIDFlag.Get, UUIDFlag.String, hbad]
  · intro m self hbad
    obtain ⟨ptr⟩ := self
    cases ptr with
    | none => simp [URLFlag.Set, URLFlag.Get, URLFlag.String, hbad, Cells.alloc]
    | some p => simp [URLFlag.Set, URLFlag.Get, URLFlag.String, hbad]

/-- Claim C11 at a concrete input: a `UUIDFlag` around a cell that holds 9, and
the one-byte input `"e"`, which the example parser rejects. -/
theorem C11_rejected_scalar_set_keeps_value_witness :
    (UUIDFlag.Set exampleCodec (exampleCells.alloc 9).1 (NewUUIDFlag (some 0)) (str "e")).err
      = some ⟨str "e"⟩ ∧
    UUIDFlag.Get exampleCodec
        (UUIDFlag.Set exampleCodec (exampleCells.alloc 9).1 (NewUUIDFlag (some 0)) (str "e")).cells
        (UUIDFlag.Set exampleCodec (exampleCells.alloc 9).1 (NewUUIDFlag (some 0)) (str "e")).flag
      = UUIDFlag.Get exampleCodec (exampleCells.alloc 9).1 (NewUUIDFlag (some 0)) ∧
    UUIDFlag.String exampleCodec
        (UUIDFlag.Set exampleCodec (exampleCells.alloc 9).1 (NewUUIDFlag (some 0)) (str "e")).cells
        (UUIDFlag.Set exampleCodec (exampleCells.alloc 9).1 (NewUUIDFlag (some 0)) (str "e")).flag
      = UUIDFlag.String exampleCodec (exampleCells.alloc 9).1 (NewUUIDFlag (some 0)) ∧
    (∀ p, (NewUUIDFlag (some 0)).ptr = some p →
      (UUIDFlag.Set exampleCodec (exampleCells.alloc 9).1 (NewUUIDFlag (some 0)) (str "e")).cells
        = (exampleCells.alloc 9).1 ∧
      (UUIDFlag.Set exampleCodec (exampleCells.alloc 9).1 (NewUUIDFlag (some 0)) (str "e")).flag
        = NewUUIDFlag (some 0)) :=
  (C11_rejected_scalar_set_keeps_value exampleCodec (str "e") ⟨str "e"⟩).1
    (exampleCells.alloc 9).1 (NewUUIDFlag (some 0)) rfl

/-- Claim C12. For every `UUIDFlag` and every `URLFlag` built around the cell at
address `p` and every input that parses to the value `v`: `Set` returns no
error, afterwards the cell at `p` holds `v` and the adapter still points to it,
`Get` returns `v` (for the URL: the address `p` itself, without creating a
cell), and `String` returns the string form of `v`. -/
theorem C12_scalar_set_writes_through (c : Codec U L) (s : GoString) (p : Nat) :
    (∀ (m : Cells U) (v : U), c.uuidParse s = .ok v →
      (UUIDFlag.Set c m (NewUUIDFlag (some p)) s).err = none ∧
      (UUIDFlag.Set c m (NewUUIDFlag (some p)) s).cells.cell p = v ∧
      (UUIDFlag.Set c m (NewUUIDFlag (some p)) s).flag = NewUUIDFlag (some p) ∧
      UUIDFlag.Get c (UUIDFlag.Set c m (NewUUIDFlag (some p)) s).cells
        (UUIDFlag.Set c m (NewUUIDFlag (some p)) s).flag = v ∧
      UUIDFlag.String c (UUIDFlag.Set c m (NewUUIDFlag (some p)) s).cells
        (UUIDFlag.Set c m (NewUUIDFlag (some p)) s).flag = c.uuidString v) ∧
    (∀ (m : Cells L) (v : L), c.urlParse s = .ok v →
      (URLFlag.Set c m (NewURLFlag (some p)) s).err = none ∧
      (URLFlag.Set c m (NewURLFlag (some p)) s).cells.cell p = v ∧
      (URLFlag.Set c m (NewURLFlag (some p)) s).flag = NewURLFlag (some p) ∧
      URLFlag.Get c (URLFlag.Set c m (NewURLFlag (some p)) s).cells
        (URLFlag.Set c m (NewURLFlag (some p)) s).flag
        = ((URLFlag.Set c m (NewURLFlag (some p)) s).cells, p) ∧
      URLFlag.String c (URLFlag.Set c m (NewURLFlag (some p)) s).cells
        (URLFlag.Set c m (NewURLFlag (some p)) s).flag = c.urlString v) := by
  constructor
  · intro m v hok
    simp [UUIDFlag.Set, UUIDFlag.Get, UUIDFlag.String, NewUUIDFlag, hok, Cells.write]
  · intro m v hok
    simp [URLFlag.Set, URLFlag.Get, URLFlag.String, NewURLFlag, hok, Cells.write]

/-- Claim C12 at a concrete input: a `URLFlag` around a cell that holds 9, and the
input `"ab"`, which the example parser reads as 195. -/
theorem C12_scalar_set_writes_through_witness :
    (URLFlag.Set exampleCodec (exampleCells.alloc 9).1 (NewURLFlag (some 0)) (str "ab")).err
      = none ∧
    (URLFlag.Set exampleCodec (exampleCells.alloc 9).1 (NewURLFlag (some 0))
      (str "ab")).cells.cell 0 = 195 ∧
    (URLFlag.Set exampleCodec (exampleCells.alloc 9).1 (NewURLFlag (some 0)) (str "ab")).flag
      = NewURLFlag (some 0) ∧
    URLFlag.Get exampleCodec
        (URLFlag.Set exampleCodec (exampleCells.alloc 9).1 (NewURLFlag (some 0)) (str "ab")).cells
        (URLFlag.Set exampleCodec (exampleCells.alloc 9).1 (NewURLFlag (some 0)) (str "ab")).flag
      = ((URLFlag.Set exampleCodec (exampleCells.alloc 9).1 (NewURLFlag (some 0))
          (str "ab")).cells, 0) ∧
    URLFlag.String exampleCodec
        (URLFlag.Set exampleCodec (exampleCells.alloc 9).1 (NewURLFlag (some 0)) (str "ab")).cells
        (URLFlag.Set exampleCodec (exampleCells.alloc 9).1 (NewURLFlag (some 0)) (str "ab")).flag
      = exampleCodec.urlString 195 :=
  (C12_scalar_set_writes_through exampleCodec (str "ab") 0).2 (exampleCells.alloc 9).1 195 rfl

/-- Claim C13. An adapter without cell reads as the zero value, whatever the
cells hold: a `UUIDFlag` renders the string form of `uuid.Nil` and `Get` returns
`uuid.Nil`; a `URLFlag` renders the string form of the zero `url.URL`, and `Get`
returns a pointer to a new cell that holds the zero `url.URL`. -/
theorem C13_unset_scalar_reads_zero (c : Codec U L) (mu : Cells U) (ml : Cells L) :
    UUIDFlag.String c mu (NewUUIDFlag none) = c.uuidString c.uuidNil ∧
    UUIDFlag.Get c mu (NewUUIDFlag none) = c.uuidNil ∧
    URLFlag.String c ml (NewURLFlag none) = c.urlString c.urlZero ∧
    (URLFlag.Get c ml (NewURLFlag none)).1.cell (URLFlag.Get c ml (NewURLFlag none)).2
      = c.urlZero ∧
    (URLFlag.Get c ml (NewURLFlag none)).2 = ml.next := by
  refine ⟨rfl, rfl, rfl, ?_, rfl⟩
  simp [URLFlag.Get, NewURLFlag, Cells.alloc]

/-- Claim C14. `Get` on a `SliceFlag` that has never been written returns an
empty collection: the empty string collection when the adapter has no target,
and the empty collection of the target's element type when the adapter has a
string, identifier or URL target whose `Target` is nil. In the latter cases the
target's `Target` is not nil after the call: it points to the empty collection
that was returned. -/
theorem C14_get_unwritten_is_empty (h : Heap U L) (d : GoString) (a : Nat) :
    (SliceFlag.Get h (NewSliceFlag none d)).2 = SliceFlagTarget.Value.strings [] ∧
    (h.obj a = SliceFlagTarget.StringSliceFlagTarget none →
      (SliceFlag.Get h (NewSliceFlag (some a) d)).2 = SliceFlagTarget.Value.strings [] ∧
      (SliceFlag.Get h (NewSliceFlag (some a) d)).1.obj a
        = SliceFlagTarget.StringSliceFlagTarget (some [])) ∧
    (h.obj a = SliceFlagTarget.UUIDSliceFlagTarget none →
      (SliceFlag.Get h (NewSliceFlag (some a) d)).2 = SliceFlagTarget.Value.uuids [] ∧
      (SliceFlag.Get h (NewSliceFlag (some a) d)).1.obj a
        = SliceFlagTarget.UUIDSliceFlagTarget (some [])) ∧
    (h.obj a = SliceFlagTarget.URLSliceFlagTarget none →
      (SliceFlag.Get h (NewSliceFlag (some a) d)).2 = SliceFlagTarget.Value.urls [] ∧
      (SliceFlag.Get h (NewSliceFlag (some a) d)).1.obj a
        = SliceFlagTarget.URLSliceFlagTarget (some [])) := by
  refine ⟨?_, fun ht => ?_, fun ht => ?_, fun ht => ?_⟩
  · simp [SliceFlag.Get, NewSliceFlag, Heap.alloc, SliceFlagTarget.Get, makeSafe]
  · simp [SliceFlag.Get, NewSliceFlag, ht, SliceFlagTarget.Get, makeSafe]
  · simp [SliceFlag.Get, NewSliceFlag, ht, SliceFlagTarget.Get, makeSafe]
  · simp [SliceFlag.Get, NewSliceFlag, ht, SliceFlagTarget.Get, makeSafe]

/-- Claim C14 at a concrete input: an adapter around an identifier target with a
nil `Target`. -/
theorem C14_get_unwritten_is_empty_witness :
    (SliceFlag.Get (exampleHeap.alloc (SliceFlagTarget.UUIDSliceFlagTarget none)).1
      (NewSliceFlag (some 0) (str ";"))).2 = SliceFlagTarget.Value.uuids [] ∧
    (SliceFlag.Get (exampleHeap.alloc (SliceFlagTarget.UUIDSliceFlagTarget none)).1
      (NewSliceFlag (some 0) (str ";"))).1.obj 0 = SliceFlagTarget.UUIDSliceFlagTarget (some []) :=
  (C14_get_unwritten_is_empty (exampleHeap.alloc (SliceFlagTarget.UUIDSliceFlagTarget none)).1
    (str ";") 0).2.2.1 (by decide)

/-- `Join` on a target returns the string forms of its items, joined. -/
theorem SliceFlagTarget.Join_eq (c : Codec U L) (t : SliceFlagTarget U L) (del : GoString) :
    (t.Join c del).2 = Glarg.Join (itemStrings c t) del := by
  cases t with
  | StringSliceFlagTarget x => cases x <;> rfl
  | UUIDSliceFlagTarget x => cases x <;> rfl
  | URLSliceFlagTarget x => cases x <;> rfl

/-- Claim C15. For every `SliceFlag`, `String` returns the empty string when the
adapter has no target; otherwise it returns the items of the target, in order
and each in its string form, joined by the adapter's delimiter, or by the comma
when that delimiter is the empty string. -/
theorem C15_string_joins_items (c : Codec U L) (h : Heap U L) (d : GoString) (a : Nat) :
    (SliceFlag.String c h (NewSliceFlag none d)).2 = [] ∧
    (SliceFlag.String c h (NewSliceFlag (some a) d)).2
      = Join (itemStrings c (h.obj a)) (if d = [] then DEFAULT_DELIMITER else d) := by
  refine ⟨rfl, ?_⟩
  by_cases hd : d = []
  · simp [SliceFlag.String, NewSliceFlag, hd, SliceFlagTarget.Join_eq]
  · simp [SliceFlag.String, NewSliceFlag, hd, SliceFlagTarget.Join_eq]

/-- An instance found by `Index` cuts the string into the part before it, the
instance, and the part behind it. -/
theorem Index_some_eq : ∀ (s d : GoString) (m : Nat),
    Index s d = some m → s.take m ++ d ++ s.drop (m + d.length) = s
  | [], d, m, h => by
    by_cases hd : d = []
    · simp [hd]
    · simp [Index, hd] at h
  | c :: s, d, m, h => by
    by_cases hp : HasPrefix (c :: s) d = true
    · simp only [Index, hp, if_true, Option.some.injEq] at h
      subst h
      have := List.prefix_iff_eq_append.1 ((HasPrefix_iff _ _).1 hp)
      simpa using this
    · simp only [Index, hp] at h
      cases hi : Index s d with
      | none => simp [hi] at h
      | some m' =>
        simp [hi] at h
        subst h
        have ih := Index_some_eq s d m' hi
        have hdrop : (c :: s).drop (m' + 1 + d.length) = s.drop (m' + d.length) := by
          rw [show m' + 1 + d.length = (m' + d.length) + 1 by omega, List.drop_succ_cons]
        rw [List.take_succ_cons, hdrop, List.cons_append, List.cons_append, ih]

theorem genSplit.loop_ne_nil (d : GoString) : ∀ (k : Nat) (s : GoString),
    genSplit.loop d k s ≠ []
  | 0, s => by simp [genSplit.loop]
  | k + 1, s => by
    cases hi : Index s d <;> simp [genSplit.loop, hi]

theorem Join_cons_of_ne_nil (x : GoString) (ys : List GoString) (d : GoString)
    (h : ys ≠ []) : Join (x :: ys) d = x ++ d ++ Join ys d := by
  cases ys with
  | nil => exact absurd rfl h
  | cons y rest => rfl

/-- Joining the pieces that the split loop cuts gives the string back, for every
number of rounds. -/
theorem Join_genSplit_loop (d : GoString) : ∀ (k : Nat) (s : GoString),
    Join (genSplit.loop d k s) d = s
  | 0, s => by simp [genSplit.loop, Join]
  | k + 1, s => by
    cases hi : Index s d with
    | none => simp [genSplit.loop, hi, Join]
    | some m =>
      simp only [genSplit.loop, hi]
      rw [Join_cons_of_ne_nil _ _ _ (genSplit.loop_ne_nil d k _), Join_genSplit_loop d k]
      exact Index_some_eq s d m hi

/-- Go `strings.Join(strings.Split(s, sep), sep) == s` for a non-empty `sep`. -/
theorem Join_Split (s d : GoString) (hd : d ≠ []) : Join (Split s d) d = s := by
  simp only [Split, hd, if_false]
  exact Join_genSplit_loop d _ s

theorem SliceFlag.Set.loop_flag_of_no_error (c : Codec U L) (d : GoString) (a : Nat) :
    ∀ (pieces : List GoString) (h : Heap U L),
      (SliceFlag.Set.loop c d a h pieces).err = none →
      (SliceFlag.Set.loop c d a h pieces).flag = { delimiter := d, target := some a }
  | [], h, _ => by simp [SliceFlag.Set.loop]
  | v :: vs, h, he => by
    cases hv : ((h.obj a).Append c v).2 with
    | some err => simp [SliceFlag.Set.loop, hv] at he
    | none =>
      simp only [SliceFlag.Set.loop, hv] at he ⊢
      exact SliceFlag.Set.loop_flag_of_no_error c d a vs _ he

/-- After `Set` on a string-backed adapter, `String` renders the pieces that `Set`
stored, with the same delimiter. -/
theorem SliceFlag.String_after_Set_string (c : Codec U L) (h : Heap U L) (d s : GoString)
    (flag : SliceFlag) (a : Nat) (hd : flag.delimiter = d)
    (herr : (SliceFlag.Set c h flag s).err = none)
    (hflag : (SliceFlag.Set c h flag s).flag.target = some a)
    (hobj : (SliceFlag.Set c h flag s).heap.obj a =
      SliceFlagTarget.StringSliceFlagTarget (some (Split s (effectiveDelimiter d)))) :
    (SliceFlag.String c (SliceFlag.Set c h flag s).heap (SliceFlag.Set c h flag s).flag).2 = s := by
  have hdel : (SliceFlag.Set c h flag s).flag.delimiter = d := by
    have := SliceFlag.Set.loop_flag_of_no_error c flag.delimiter _ _ _ herr
    simp only [SliceFlag.Set] at this ⊢
    rw [this, hd]
  have hj := Join_Split s (effectiveDelimiter d) (effectiveDelimiter_ne_nil d)
  unfold effectiveDelimiter at hj hobj
  by_cases hde : d = []
  · simp only [hde, if_true] at hj hobj
    simp [SliceFlag.String, hflag, hdel, hde, hobj, SliceFlagTarget.Join, makeSafe, hj]
  · simp only [hde, if_false] at hj hobj
    simp [SliceFlag.String, hflag, hdel, hde, hobj, SliceFlagTarget.Join, makeSafe, hj]

/-- Claim C19. For every input string `s` and every delimiter setting, after
`SliceFlag.Set(s)` on a string-backed adapter (around a supplied string target
with any content, or without target, so that `Set` creates one), `String()`
returns exactly `s`. -/
theorem C19_string_after_set_is_input (c : Codec U L) (h : Heap U L) (d s : GoString) :
    (∀ (a : Nat) (t : Option (List GoString)),
      h.obj a = SliceFlagTarget.StringSliceFlagTarget t →
      (SliceFlag.String c (SliceFlag.Set c h (NewSliceFlag (some a) d) s).heap
        (SliceFlag.Set c h (NewSliceFlag (some a) d) s).flag).2 = s) ∧
    (SliceFlag.String c (SliceFlag.Set c h (NewSliceFlag none d) s).heap
      (SliceFlag.Set c h (NewSliceFlag none d) s).flag).2 = s := by
  constructor
  · intro a t ht
    obtain ⟨h1, h2, h3⟩ := SliceFlag.Set_string_supplied c h d s a t ht
    exact SliceFlag.String_after_Set_string c h d s _ a rfl h1 h3 h2
  · obtain ⟨h1, h2, h3⟩ := SliceFlag.Set_string_lazy c h d s
    exact SliceFlag.String_after_Set_string c h d s _ h.next rfl h1 h2 h3

/-- Claim C19 at a concrete input: a string target holding `["old"]`, the
delimiter `"::"` and the input `":a:::b:"`. -/
theorem C19_string_after_set_is_input_witness :
    (SliceFlag.String exampleCodec
      (SliceFlag.Set exampleCodec
        (exampleHeap.alloc (SliceFlagTarget.StringSliceFlagTarget (some [str "old"]))).1
        (NewSliceFlag (some 0) (str "::")) (str ":a:::b:")).heap
      (SliceFlag.Set exampleCodec
        (exampleHeap.alloc (SliceFlagTarget.StringSliceFlagTarget (some [str "old"]))).1
        (NewSliceFlag (some 0) (str "::")) (str ":a:::b:")).flag).2 = str ":a:::b:" :=
  (C19_string_after_set_is_input exampleCodec
    (exampleHeap.alloc (SliceFlagTarget.StringSliceFlagTarget (some [str "old"]))).1
    (str "::") (str ":a:::b:")).1 0 (some [str "old"]) (by decide)

theorem Split_nil (d : GoString) (hd : d ≠ []) : Split [] d = [[]] := by
  simp [Split, hd, Count, Count.loop, genSplit.loop]

/-- Claim C20. For every delimiter setting, `SliceFlag.Set("")` on a string-backed
adapter (around a supplied string target, or without target) returns no error
and leaves the target holding exactly one item, the empty string; so an empty
string list renders as the empty text, and parsing that text leaves a one-item
list. On an identifier-backed adapter, where the element parser rejects the empty
string with the error `e` (as `uuid.Parse` does), `Set("")` returns `e` and
leaves the target's collection empty. -/
theorem C20_set_empty_input (c : Codec U L) (h : Heap U L) (d : GoString) (a : Nat) :
    (∀ t, h.obj a = SliceFlagTarget.StringSliceFlagTarget t →
      (SliceFlag.Set c h (NewSliceFlag (some a) d) []).err = none ∧
      (SliceFlag.Set c h (NewSliceFlag (some a) d) []).heap.obj a
        = SliceFlagTarget.StringSliceFlagTarget (some [[]])) ∧
    ((SliceFlag.Set c h (NewSliceFlag none d) []).err = none ∧
      (SliceFlag.Set c h (NewSliceFlag none d) []).heap.obj h.next
        = SliceFlagTarget.StringSliceFlagTarget (some [[]])) ∧
    (h.obj a = SliceFlagTarget.StringSliceFlagTarget (some []) →
      (SliceFlag.String c h (NewSliceFlag (some a) d)).2 = [] ∧
      (SliceFlag.Set c (SliceFlag.String c h (NewSliceFlag (some a) d)).1
        (NewSliceFlag (some a) d) (SliceFlag.String c h (NewSliceFlag (some a) d)).2).heap.obj a
        = SliceFlagTarget.StringSliceFlagTarget (some [[]])) ∧
    (∀ t e, h.obj a = SliceFlagTarget.UUIDSliceFlagTarget t → c.uuidParse [] = .error e →
      (SliceFlag.Set c h (NewSliceFlag (some a) d) []).err = some e ∧
      (SliceFlag.Set c h (NewSliceFlag (some a) d) []).heap.obj a
        = SliceFlagTarget.UUIDSliceFlagTarget (some [])) := by
  have hs := Split_nil (effectiveDelimiter d) (effectiveDelimiter_ne_nil d)
  refine ⟨fun t ht => ?_, ?_, fun ht => ?_, fun t e ht hbad => ?_⟩
  · have := SliceFlag.Set_string_supplied c h d [] a t ht
    rw [hs] at this
    exact ⟨this.1, this.2.1⟩
  · have := SliceFlag.Set_string_lazy c h d []
    rw [hs] at this
    exact ⟨this.1, this.2.2⟩
  · have hr : (SliceFlag.String c h (NewSliceFlag (some a) d)).2 = [] := by
      by_cases hd : d = [] <;>
        simp [SliceFlag.String, NewSliceFlag, hd, ht, SliceFlagTarget.Join, makeSafe, Join]
    have hh : (SliceFlag.String c h (NewSliceFlag (some a) d)).1.obj a
        = SliceFlagTarget.StringSliceFlagTarget (some []) := by
      by_cases hd : d = [] <;>
        simp [SliceFlag.String, NewSliceFlag, hd, ht, SliceFlagTarget.Join, makeSafe]
    have := SliceFlag.Set_string_supplied c (SliceFlag.String c h (NewSliceFlag (some a) d)).1
      d [] a (some []) hh
    rw [hs] at this
    rw [hr]
    exact ⟨rfl, this.2.1⟩
  · have hl := SliceFlag.Set.loop_uuid c d a [] [] e hbad [] [] List.Forall₂.nil
      (h.write a (SliceFlagTarget.UUIDSliceFlagTarget (some []))) [] (by simp)
    simp only [SliceFlag.Set, NewSliceFlag, SliceFlag.Set_pieces, hs, ht,
      SliceFlagTarget.Clear, makeSafe_take_zero]
    exact ⟨hl.1, by simpa using hl.2.2.1⟩

/-- Claim C20 at a concrete input: an identifier target holding `[5]` and the
example parser, which rejects the empty string. -/
theorem C20_set_empty_input_witness :
    (SliceFlag.Set exampleCodec
      (exampleHeap.alloc (SliceFlagTarget.UUIDSliceFlagTarget (some [5]))).1
      (NewSliceFlag (some 0) (str ";")) []).err = some ⟨[]⟩ ∧
    (SliceFlag.Set exampleCodec
      (exampleHeap.alloc (SliceFlagTarget.UUIDSliceFlagTarget (some [5]))).1
      (NewSliceFlag (some 0) (str ";")) []).heap.obj 0
      = SliceFlagTarget.UUIDSliceFlagTarget (some []) :=
  (C20_set_empty_input exampleCodec
    (exampleHeap.alloc (SliceFlagTarget.UUIDSliceFlagTarget (some [5]))).1 (str ";") 0).2.2.2
    (some [5]) ⟨[]⟩ (by decide) rfl

/-- Claim C16 fails after a failed `Set`. An adapter is built around the caller's
identifier collection at address 0, which holds `[5]`. `Set("e")` is rejected: it
returns an error, leaves the collection cleared, and leaves the adapter without
target, because `Set` stores the nil that `Append` returns next to the error. The
next call `Set("ab")` returns no error, although `"ab"` parses to the identifier
195: `Set` creates a string target at the free address 1 and stores the text
`"ab"` there, and the caller's collection stays empty. -/
theorem C16_set_after_failed_set_misses_target :
    (SliceFlag.Set exampleCodec
      (exampleHeap.alloc (SliceFlagTarget.UUIDSliceFlagTarget (some [5]))).1
      (NewSliceFlag (some 0) (str "")) (str "e")).err = some ⟨str "e"⟩ ∧
    (SliceFlag.Set exampleCodec
      (exampleHeap.alloc (SliceFlagTarget.UUIDSliceFlagTarget (some [5]))).1
      (NewSliceFlag (some 0) (str "")) (str "e")).flag = NewSliceFlag none (str "") ∧
    exampleCodec.uuidParse (str "ab") = .ok 195 ∧
    (SliceFlag.Set exampleCodec
      (SliceFlag.Set exampleCodec
        (exampleHeap.alloc (SliceFlagTarget.UUIDSliceFlagTarget (some [5]))).1
        (NewSliceFlag (some 0) (str "")) (str "e")).heap
      (SliceFlag.Set exampleCodec
        (exampleHeap.alloc (SliceFlagTarget.UUIDSliceFlagTarget (some [5]))).1
        (NewSliceFlag (some 0) (str "")) (str "e")).flag (str "ab")).err = none ∧
    (SliceFlag.Set exampleCodec
      (SliceFlag.Set exampleCodec
        (exampleHeap.alloc (SliceFlagTarget.UUIDSliceFlagTarget (some [5]))).1
        (NewSliceFlag (some 0) (str "")) (str "e")).heap
      (SliceFlag.Set exampleCodec
        (exampleHeap.alloc (SliceFlagTarget.UUIDSliceFlagTarget (some [5]))).1
        (NewSliceFlag (some 0) (str "")) (str "e")).flag (str "ab")).heap.obj 0
      = SliceFlagTarget.UUIDSliceFlagTarget (some []) ∧
    (SliceFlag.Set exampleCodec
      (SliceFlag.Set exampleCodec
        (exampleHeap.alloc (SliceFlagTarget.UUIDSliceFlagTarget (some [5]))).1
        (NewSliceFlag (some 0) (str "")) (str "e")).heap
      (SliceFlag.Set exampleCodec
        (exampleHeap.alloc (SliceFlagTarget.UUIDSliceFlagTarget (some [5]))).1
        (NewSliceFlag (some 0) (str "")) (str "e")).flag (str "ab")).heap.obj 1
      = SliceFlagTarget.StringSliceFlagTarget (some [str "ab"]) := by
  refine ⟨by decide, by decide, rfl, by decide, by decide, by decide⟩

/-- A list of pieces that holds a rejected piece has a first rejected piece, and
the pieces before it parse. -/
theorem exists_first_rejected {V : Type} (parse : GoString → Except Error V) :
    ∀ (pieces : List GoString), (∃ p ∈ pieces, ∃ e, parse p = .error e) →
      ∃ (pre : List GoString) (bad : GoString) (post : List GoString) (vals : List V)
        (e : Error), pieces = pre ++ bad :: post ∧
          List.Forall₂ (fun p v => parse p = .ok v) pre vals ∧ parse bad = .error e
  | [], h => by
    obtain ⟨p, hp, _⟩ := h
    simp at hp
  | q :: qs, h => by
    cases hq : parse q with
    | error e => exact ⟨[], q, qs, [], e, rfl, List.Forall₂.nil, hq⟩
    | ok v =>
      have h' : ∃ p ∈ qs, ∃ e, parse p = .error e := by
        obtain ⟨p, hp, e, he⟩ := h
        rcases List.mem_cons.1 hp with rfl | hp
        · rw [hq] at he
          cases he
        · exact ⟨p, hp, e, he⟩
      obtain ⟨pre, bad, post, vals, e, rfl, hall, hbad⟩ := exists_first_rejected parse qs h'
      exact ⟨q :: pre, bad, post, v :: vals, e, rfl, List.Forall₂.cons hq hall, hbad⟩

/-- An adapter without target renders as the empty string, and its `Get` returns
the empty string collection. -/
theorem SliceFlag.String_Get_of_no_target (c : Codec U L) (h : Heap U L) (flag : SliceFlag)
    (hflag : flag.target = none) :
    (SliceFlag.String c h flag).2 = [] ∧
    (SliceFlag.Get h flag).2 = SliceFlagTarget.Value.strings [] := by
  constructor
  · simp [SliceFlag.String, hflag]
  · simp [SliceFlag.Get, hflag, Heap.alloc, SliceFlagTarget.Get, makeSafe]

/-- Claim C21. For every `SliceFlag` around an identifier target, and likewise
around a URL target, whatever the target held before, and every input of which
some piece (split on the effective delimiter) is rejected by the element parser:
the pieces are `pre ++ bad :: post` with `bad` the first rejected piece, `Set`
returns the error of `bad`, and after the call the adapter holds no target, its
`String()` returns the empty string and its `Get()` returns the empty string
collection, while the caller-owned collection of the target holds exactly the
parsed values `vals` of the pieces `pre`, in order. -/
theorem C21_failed_set_detaches_adapter (c : Codec U L) (h : Heap U L) (d s : GoString)
    (a : Nat) :
    (∀ (t : Option (List U)), h.obj a = SliceFlagTarget.UUIDSliceFlagTarget t →
      (∃ p ∈ Split s (effectiveDelimiter d), ∃ e, c.uuidParse p = .error e) →
      ∃ (pre : List GoString) (bad : GoString) (post : List GoString) (vals : List U)
        (e : Error), Split s (effectiveDelimiter d) = pre ++ bad :: post ∧
          List.Forall₂ (fun p v => c.uuidParse p = .ok v) pre vals ∧
          c.uuidParse bad = .error e ∧
          (SliceFlag.Set c h (NewSliceFlag (some a) d) s).err = some e ∧
          (SliceFlag.Set c h (NewSliceFlag (some a) d) s).flag.target = none ∧
          (SliceFlag.String c (SliceFlag.Set c h (NewSliceFlag (some a) d) s).heap
            (SliceFlag.Set c h (NewSliceFlag (some a) d) s).flag).2 = [] ∧
          (SliceFlag.Get (SliceFlag.Set c h (NewSliceFlag (some a) d) s).heap
            (SliceFlag.Set c h (NewSliceFlag (some a) d) s).flag).2
            = SliceFlagTarget.Value.strings [] ∧
          (SliceFlag.Set c h (NewSliceFlag (some a) d) s).heap.obj a
            = SliceFlagTarget.UUIDSliceFlagTarget (some vals)) ∧
    (∀ (t : Option (List L)), h.obj a = SliceFlagTarget.URLSliceFlagTarget t →
      (∃ p ∈ Split s (effectiveDelimiter d), ∃ e, c.urlParse p = .error e) →
      ∃ (pre : List GoString) (bad : GoString) (post : List GoString) (vals : List L)
        (e : Error), Split s (effectiveDelimiter d) = pre ++ bad :: post ∧
          List.Forall₂ (fun p v => c.urlParse p = .ok v) pre vals ∧
          c.urlParse bad = .error e ∧
          (SliceFlag.Set c h (NewSliceFlag (some a) d) s).err = some e ∧
          (SliceFlag.Set c h (NewSliceFlag (some a) d) s).flag.target = none ∧
          (SliceFlag.String c (SliceFlag.Set c h (NewSliceFlag (some a) d) s).heap
            (SliceFlag.Set c h (NewSliceFlag (some a) d) s).flag).2 = [] ∧
          (SliceFlag.Get (SliceFlag.Set c h (NewSliceFlag (some a) d) s).heap
            (SliceFlag.Set c h (NewSliceFlag (some a) d) s).flag).2
            = SliceFlagTarget.Value.strings [] ∧
          (SliceFlag.Set c h (NewSliceFlag (some a) d) s).heap.obj a
            = SliceFlagTarget.URLSliceFlagTarget (some vals)) := by
  constructor
  · intro t ht hrej
    obtain ⟨pre, bad, post, vals, e, hsplit, hall, hbad⟩ :=
      exists_first_rejected c.uuidParse _ hrej
    have hs := SliceFlag.Set.loop_uuid c d a bad post e hbad pre vals hall
      (h.write a (SliceFlagTarget.UUIDSliceFlagTarget (some []))) [] (by simp)
    have hset : SliceFlag.Set c h (NewSliceFlag (some a) d) s
        = SliceFlag.Set.loop c d a (h.write a (SliceFlagTarget.UUIDSliceFlagTarget (some [])))
            (pre ++ bad :: post) := by
      simp only [SliceFlag.Set, NewSliceFlag, SliceFlag.Set_pieces, hsplit, ht,
        SliceFlagTarget.Clear, makeSafe_take_zero]
    rw [hset]
    have hsg := SliceFlag.String_Get_of_no_target c
      (SliceFlag.Set.loop c d a (h.write a (SliceFlagTarget.UUIDSliceFlagTarget (some [])))
        (pre ++ bad :: post)).heap _ hs.2.2.2
    exact ⟨pre, bad, post, vals, e, hsplit, hall, hbad, hs.1, hs.2.2.2, hsg.1, hsg.2,
      by simpa using hs.2.2.1⟩
  · intro t ht hrej
    obtain ⟨pre, bad, post, vals, e, hsplit, hall, hbad⟩ :=
      exists_first_rejected c.urlParse _ hrej
    have hs := SliceFlag.Set.loop_url c d a bad post e hbad pre vals hall
      (h.write a (SliceFlagTarget.URLSliceFlagTarget (some []))) [] (by simp)
    have hset : SliceFlag.Set c h (NewSliceFlag (some a) d) s
        = SliceFlag.Set.loop c d a (h.write a (SliceFlagTarget.URLSliceFlagTarget (some [])))
            (pre ++ bad :: post) := by
      simp only [SliceFlag.Set, NewSliceFlag, SliceFlag.Set_pieces, hsplit, ht,
        SliceFlagTarget.Clear, makeSafe_take_zero]
    rw [hset]
    have hsg := SliceFlag.String_Get_of_no_target c
      (SliceFlag.Set.loop c d a (h.write a (SliceFlagTarget.URLSliceFlagTarget (some [])))
        (pre ++ bad :: post)).heap _ hs.2.2.2
    exact ⟨pre, bad, post, vals, e, hsplit, hall, hbad, hs.1, hs.2.2.2, hsg.1, hsg.2,
      by simpa using hs.2.2.1⟩

/-- Claim C21 at a concrete input: an identifier target holding `[5]`, the input
`"ab,cd,e,fg"` and the parser that accepts two-byte items, which rejects the
piece `"e"`. -/
theorem C21_failed_set_detaches_adapter_witness :
    ∃ (pre : List GoString) (bad : GoString) (post : List GoString) (vals : List Nat)
      (e : Error), Split (str "ab,cd,e,fg") (effectiveDelimiter (str "")) = pre ++ bad :: post ∧
        List.Forall₂ (fun p v => exampleCodec.uuidParse p = .ok v) pre vals ∧
        exampleCodec.uuidParse bad = .error e ∧
        (SliceFlag.Set exampleCodec
          (exampleHeap.alloc (SliceFlagTarget.UUIDSliceFlagTarget (some [5]))).1
          (NewSliceFlag (some 0) (str "")) (str "ab,cd,e,fg")).err = some e ∧
        (SliceFlag.Set exampleCodec
          (exampleHeap.alloc (SliceFlagTarget.UUIDSliceFlagTarget (some [5]))).1
          (NewSliceFlag (some 0) (str "")) (str "ab,cd,e,fg")).flag.target = none ∧
        (SliceFlag.String exampleCodec
          (SliceFlag.Set exampleCodec
            (exampleHeap.alloc (SliceFlagTarget.UUIDSliceFlagTarget (some [5]))).1
            (NewSliceFlag (some 0) (str "")) (str "ab,cd,e,fg")).heap
          (SliceFlag.Set exampleCodec
            (exampleHeap.alloc (SliceFlagTarget.UUIDSliceFlagTarget (some [5]))).1
            (NewSliceFlag (some 0) (str "")) (str "ab,cd,e,fg")).flag).2 = [] ∧
        (SliceFlag.Get
          (SliceFlag.Set exampleCodec
            (exampleHeap.alloc (SliceFlagTarget.UUIDSliceFlagTarget (some [5]))).1
            (NewSliceFlag (some 0) (str "")) (str "ab,cd,e,fg")).heap
          (SliceFlag.Set exampleCodec
            (exampleHeap.alloc (SliceFlagTarget.UUIDSliceFlagTarget (some [5]))).1
            (NewSliceFlag (some 0) (str "")) (str "ab,cd,e,fg")).flag).2
          = SliceFlagTarget.Value.strings [] ∧
        (SliceFlag.Set exampleCodec
          (exampleHeap.alloc (SliceFlagTarget.UUIDSliceFlagTarget (some [5]))).1
          (NewSliceFlag (some 0) (str "")) (str "ab,cd,e,fg")).heap.obj 0
          = SliceFlagTarget.UUIDSliceFlagTarget (some vals) :=
  (C21_failed_set_detaches_adapter exampleCodec
    (exampleHeap.alloc (SliceFlagTarget.UUIDSliceFlagTarget (some [5]))).1
    (str "") (str "ab,cd,e,fg") 0).1 (some [5]) (by decide)
    ⟨str "e", by decide, ⟨str "e"⟩, rfl⟩

end FlagTheorems

/-! ## Theorems: `subcommand.go` -/

section SubcommandTheorems

open Subcommand

@[simp] theorem Subcommand.FlagSet_SetupSubcommand (v : Subcommand) :
    v.SetupSubcommand.FlagSet = some (NewFlagSet v.Name) := by
  cases v <;> simp [SetupSubcommand, Subcommand.FlagSet, Name]

@[simp] theorem Subcommand.Name_SetupSubcommand (v : Subcommand) :
    v.SetupSubcommand.Name = v.Name := by
  cases v <;> simp [SetupSubcommand, Name]

@[simp] theorem Subcommand.HasInvalidFlags_SetupSubcommand (v : Subcommand) :
    v.SetupSubcommand.HasInvalidFlags = v.HasInvalidFlags := by
  cases v <;> simp [SetupSubcommand, HasInvalidFlags]

@[simp] theorem Subcommand.UnpackArgs_SetupSubcommand (v : Subcommand) :
    v.SetupSubcommand.UnpackArgs = v.UnpackArgs := by
  cases v <;> simp [SetupSubcommand, UnpackArgs]

theorem Subcommand.flagSetNames_setup : ∀ (vs : List Subcommand),
    flagSetNames (SetupSubcommand.children vs) = some (vs.map Name)
  | [] => by simp [SetupSubcommand.children, flagSetNames]
  | v :: vs => by
    simp [SetupSubcommand.children, flagSetNames, Subcommand.flagSetNames_setup vs, NewFlagSet]

theorem Subcommand.Description_setup (v : Subcommand) :
    ∃ d, v.SetupSubcommand.Description = some d := by
  cases v <;> simp [SetupSubcommand, Description, Subcommand.flagSetNames_setup]

/-- After the setup `Usage` does not panic. -/
theorem Subcommand.Usage_setup : ∀ (vs : List Subcommand),
    ∃ lines, Usage (SetupSubcommand.children vs) = some lines
  | [] => ⟨[], by simp [SetupSubcommand.children, Usage]⟩
  | v :: vs => by
    obtain ⟨lines, hl⟩ := Subcommand.Usage_setup vs
    obtain ⟨d, hd⟩ := Subcommand.Description_setup v
    exact ⟨(v.Name, d) :: lines, by simp [SetupSubcommand.children, Usage, hl, hd, NewFlagSet]⟩

/-- After the setup the loop over the children finds the first child with the
requested name. -/
theorem Subcommand.findChild_setup (token : GoString) : ∀ (vs : List Subcommand),
    findChild token (SetupSubcommand.children vs) =
      match firstNamed token vs with
      | some v => Lookup.found v.SetupSubcommand (NewFlagSet v.Name)
      | none => Lookup.missing
  | [] => by simp [SetupSubcommand.children, findChild, firstNamed]
  | v :: vs => by
    have ih := Subcommand.findChild_setup token vs
    by_cases hv : v.Name = token
    · simp [SetupSubcommand.children, findChild, firstNamed, NewFlagSet, hv]
    · simp only [firstNamed] at ih
      simp [SetupSubcommand.children, findChild, firstNamed, NewFlagSet, hv, ih]

theorem Subcommand.Execute_noop (fuel : Nat) (f : Option Glarg.FlagSet) (name : GoString)
    (err : Option Error) (invalid : Bool) (status : Int) :
    Execute (fuel + 1) (SubcommandNoOp f name err invalid status) =
      some { outcome := Outcome.returned status, trace := [Event.Execute name] } := by
  simp [Execute]

@[simp] theorem executed_append (xs ys : List Event) :
    executed (xs ++ ys) = executed xs ++ executed ys := by
  induction xs with
  | nil => rfl
  | cons e xs ih => cases e <;> simp [executed, ih]

@[simp] theorem add_two_not_lt_two (n : Nat) : ¬ (n + 1 + 1 < 2) := by omega

@[simp] theorem FlagSet.Parse_nil (f : Glarg.FlagSet) : f.Parse [] = none := rfl

/-- The flag parser of a flag set without flags returns exactly when the first
token, if there is one, is not a flag token; otherwise it ends the process. -/
theorem FlagSet.Parse_cons_eq_none_iff (f : Glarg.FlagSet) (s : GoString) (rest : List GoString) :
    f.Parse (s :: rest) = none ↔ isFlagToken s = false := by
  unfold FlagSet.Parse isFlagToken
  dsimp only
  by_cases h1 : s.length < 2 ∨ s.head? ≠ some 45
  · have : ¬ (2 ≤ s.length ∧ s.head? = some 45) := by
      rintro ⟨ha, hb⟩
      rcases h1 with h | h
      · omega
      · exact h hb
    simp only [h1, if_true, true_iff]
    simp only [Bool.and_eq_false_iff, Bool.not_eq_false', decide_eq_false_iff_not,
      decide_eq_true_eq]
    by_cases ha : 2 ≤ s.length
    · exact Or.inl (Or.inr fun hb => this ⟨ha, hb⟩)
    · exact Or.inl (Or.inl ha)
  · have h1' : 2 ≤ s.length ∧ s.head? = some 45 := by
      constructor
      · by_contra hc; exact h1 (Or.inl (by omega))
      · by_contra hc; exact h1 (Or.inr hc)
    by_cases h2 : s[1]? = some 45 ∧ s.length = 2
    · have hs : s = [45, 45] := by
        match s, h1', h2 with
        | [a, b], h1', h2 =>
          simp at h1' h2
          simp [h1', h2]
      simp [h1, h2, hs]
    · have hs : s ≠ [45, 45] := by
        rintro rfl
        exact h2 (by simp)
      have hflag : (decide (2 ≤ s.length) && decide (s.head? = some 45) &&
          !decide (s = [45, 45])) = true := by
        simp [h1'.1, h1'.2, hs]
      rw [if_neg h1, if_neg h2, hflag]
      simp only [Bool.true_eq_false, iff_false]
      intro h
      split_ifs at h

theorem Subcommand.scopeLength_of_SetArgs_some {v w : Subcommand} {args : List GoString}
    (h : v.SetArgs args = some w) : scopeLength w = args.length := by
  cases v <;> simp [SetArgs] at h
  subst h
  rfl

theorem Subcommand.scopeLength_of_SetArgs_none {v : Subcommand} {args : List GoString}
    (h : v.SetArgs args = none) : scopeLength v = 0 := by
  cases v <;> simp [SetArgs] at h
  rfl

/-- The bound on the nesting is never reached when it exceeds the number of
tokens in the scope of the command: `Execute` then ends in an outcome. -/
theorem Subcommand.Execute_isSome : ∀ (fuel : Nat) (v : Subcommand),
    scopeLength v < fuel → ∃ r, Execute fuel v = some r
  | 0, _, h => absurd h (Nat.not_lt_zero _)
  | fuel + 1, SubcommandNoOp f name err invalid status, _ =>
    ⟨_, Subcommand.Execute_noop fuel f name err invalid status⟩
  | fuel + 1, Subcommands f args name children, h => by
    simp only [scopeLength] at h
    simp only [Execute]
    split
    · split <;> exact ⟨_, rfl⟩
    · rename_i hlen
      split
      · exact ⟨_, rfl⟩
      · split <;> exact ⟨_, rfl⟩
      · split
        · exact ⟨_, rfl⟩
        · split
          · exact ⟨_, rfl⟩
          · split
            · exact ⟨_, rfl⟩
            · split
              · rename_i consumer hc
                have hs := Subcommand.scopeLength_of_SetArgs_some hc
                obtain ⟨r, hr⟩ := Subcommand.Execute_isSome fuel consumer (by
                  rw [hs, List.length_drop]; omega)
                exact ⟨_, by rw [hr]; rfl⟩
              · rename_i hc
                have hs := Subcommand.scopeLength_of_SetArgs_none hc
                obtain ⟨r, hr⟩ := Subcommand.Execute_isSome fuel _ (by rw [hs]; omega)
                exact ⟨_, by rw [hr]; rfl⟩

/-- Claim C4 as stated fails when the name of `X` is a flag token: in the tree
`root -> A -> X` with `X` named `-x` (no unpacking error, valid flags, execute
status 0), `Invoke` with `[prog, A, -x]` does not return the status of `X`: the
flag set of `A` parses the token `-x`, which is not a defined flag, and ends the
process with status 2 before `X` is looked up. -/
theorem C4_valid_path_counterexample :
    Invoke (Subcommands none [] (str "root")
        [Subcommands none [] (str "A") [SubcommandNoOp none (str "-x") none false 0]])
      [str "prog", str "A", str "-x"] =
      some { outcome := Outcome.exited 2,
             trace := [Event.SetArgs (str "root") [str "prog", str "A", str "-x"],
                       Event.Execute (str "root"), Event.Parse (str "A") [str "-x"]] } := by
  decide

/-- Claim C4, amended. For every command tree `root -> A -> X`, where `A` is the
first child of the root with its name, `X` is the first child of `A` with its
name, `X` is a no-op command whose unpacking reports no error and whose
invalid-flags predicate is false, and the name of `X` is not a flag token:
`Invoke` with the arguments `[prog, A, X]` returns exactly the integer that the
execution entry point of `X` returns, and the entry points entered are those of
the root, of `A` and of `X`. -/
theorem C4_valid_path_returns_status (fr fa fx : Option Glarg.FlagSet)
    (oldr olda : List GoString) (rn an xn prog : GoString)
    (rchildren achildren : List Subcommand) (status : Int)
    (hA : firstNamed an rchildren = some (Subcommands fa olda an achildren))
    (hX : firstNamed xn achildren = some (SubcommandNoOp fx xn none false status))
    (hflag : isFlagToken xn = false) :
    ∃ r, Invoke (Subcommands fr oldr rn rchildren) [prog, an, xn] = some r ∧
      r.outcome = Outcome.returned status ∧ executed r.trace = [rn, an, xn] := by
  have hp : ∀ f : Glarg.FlagSet, f.Parse [xn] = none := fun f =>
    (FlagSet.Parse_cons_eq_none_iff f xn []).2 hflag
  have h1 := Subcommand.findChild_setup an rchildren
  have h2 := Subcommand.findChild_setup xn achildren
  rw [hA] at h1
  rw [hX] at h2
  simp only [SetupSubcommand, Name] at h1 h2
  refine ⟨{ outcome := Outcome.returned status,
            trace := [Event.SetArgs rn [prog, an, xn], Event.Execute rn, Event.Parse an [xn],
                      Event.HasInvalidFlags an false, Event.SetArgs an [an, xn],
                      Event.Execute an, Event.Parse xn [], Event.UnpackArgs xn none,
                      Event.HasInvalidFlags xn false, Event.Execute xn] }, ?_, rfl, ?_⟩
  · simp [Invoke, SetupSubcommand, SetArgs, Execute, h1, h2, hp, UnpackArgs,
      HasInvalidFlags, Result.after, Name]
  · simp [executed]

/-- Claim C4, amended, at a concrete input: the example tree with `[prog, A, Y]`,
where `Y` reports the status 7. -/
theorem C4_valid_path_returns_status_witness :
    ∃ r, Invoke (Subcommands none [] (str "root")
        [Subcommands none [] (str "A") [exampleNoOp (str "X") 0,
          SubcommandNoOp none (str "Y") none false 7],
         exampleNoOp (str "B") 0]) [str "prog", str "A", str "Y"] = some r ∧
      r.outcome = Outcome.returned 7 ∧ executed r.trace = [str "root", str "A", str "Y"] :=
  C4_valid_path_returns_status none none none [] [] (str "root") (str "A") (str "Y") (str "prog")
    [Subcommands none [] (str "A") [exampleNoOp (str "X") 0,
      SubcommandNoOp none (str "Y") none false 7], exampleNoOp (str "B") 0]
    [exampleNoOp (str "X") 0, SubcommandNoOp none (str "Y") none false 7] 7
    (by rfl) (by rfl) (by decide)

/-- Claim C5. For every root `Subcommands` node (any name, any children, any
earlier state) and every argument list with fewer than two tokens, `Invoke`
returns 1, and the only execution entry point that is entered is the root's own:
no child is executed. -/
theorem C5_missing_subcommand_returns_one (f : Option Glarg.FlagSet) (old : List GoString)
    (name : GoString) (children : List Subcommand) (args : List GoString)
    (hargs : args.length < 2) :
    ∃ r, Invoke (Subcommands f old name children) args = some r ∧
      r.outcome = Outcome.returned 1 ∧ executed r.trace = [name] := by
  obtain ⟨lines, hl⟩ := Subcommand.Usage_setup children
  refine ⟨{ outcome := Outcome.returned 1,
            trace := [Event.SetArgs name args, Event.Execute name, Event.LogMissing,
                      Event.Usage lines] }, ?_, rfl, ?_⟩
  · simp [Invoke, SetupSubcommand, SetArgs, Execute, hargs, hl, Result.after, Name]
  · simp [executed]

/-- Claim C5 at a concrete input: the example tree called with the program name
alone. -/
theorem C5_missing_subcommand_returns_one_witness :
    ∃ r, Invoke (Subcommands none [] (str "root")
        [Subcommands none [] (str "A") [exampleNoOp (str "X") 0, exampleNoOp (str "Y") 7],
         exampleNoOp (str "B") 0]) [str "prog"] = some r ∧
      r.outcome = Outcome.returned 1 ∧ executed r.trace = [str "root"] :=
  C5_missing_subcommand_returns_one none [] (str "root")
    [Subcommands none [] (str "A") [exampleNoOp (str "X") 0, exampleNoOp (str "Y") 7],
     exampleNoOp (str "B") 0] [str "prog"] (by decide)

/-- Claim C6 as stated fails when the token after the matched child is a flag
token: in the tree `root -> {A -> {X, Y}, B}` the token `-z` matches none of the
children of `A`, and `Invoke` with `[prog, A, -z]` does not return 1: the flag set
of `A` parses `-z`, which is not a defined flag, and ends the process with
status 2. -/
theorem C6_unknown_subcommand_counterexample :
    (firstNamed (str "-z") [exampleNoOp (str "X") 0, exampleNoOp (str "Y") 7]).isNone = true ∧
    Invoke (Subcommands none [] (str "root")
        [Subcommands none [] (str "A") [exampleNoOp (str "X") 0, exampleNoOp (str "Y") 7],
         exampleNoOp (str "B") 0])
      [str "prog", str "A", str "-z"] =
      some { outcome := Outcome.exited 2,
             trace := [Event.SetArgs (str "root") [str "prog", str "A", str "-z"],
                       Event.Execute (str "root"), Event.Parse (str "A") [str "-z"]] } := by
  decide

/-- Claim C6, amended. For every tree and every argument list
`prog :: token :: rest`: if `token` matches no child of the root, `Invoke`
returns 1 and enters no entry point but the root's; and if the first child with
the name `token` is a node `A` with children of its own, while the following
token is absent, or is not a flag token and matches none of the children of `A`,
then `Invoke` returns 1 and enters the entry points of the root and of `A` only,
so that no grandchild is executed. -/
theorem C6_unknown_subcommand_returns_one (fr : Option Glarg.FlagSet) (oldr : List GoString)
    (rn prog token : GoString) (rchildren : List Subcommand) (rest : List GoString) :
    (firstNamed token rchildren = none →
      ∃ r, Invoke (Subcommands fr oldr rn rchildren) (prog :: token :: rest) = some r ∧
        r.outcome = Outcome.returned 1 ∧ executed r.trace = [rn]) ∧
    (∀ (fa : Option Glarg.FlagSet) (olda : List GoString) (achildren : List Subcommand),
      firstNamed token rchildren = some (Subcommands fa olda token achildren) →
      (rest = [] ∨ ∃ z more, rest = z :: more ∧ isFlagToken z = false ∧
        firstNamed z achildren = none) →
      ∃ r, Invoke (Subcommands fr oldr rn rchildren) (prog :: token :: rest) = some r ∧
        r.outcome = Outcome.returned 1 ∧ executed r.trace = [rn, token]) := by
  refine ⟨fun hnone => ?_, fun fa olda achildren hA hrest => ?_⟩
  · obtain ⟨lines, hl⟩ := Subcommand.Usage_setup rchildren
    have h1 := Subcommand.findChild_setup token rchildren
    rw [hnone] at h1
    refine ⟨{ outcome := Outcome.returned 1,
              trace := [Event.SetArgs rn (prog :: token :: rest), Event.Execute rn,
                        Event.LogUnknown token, Event.Usage lines] }, ?_, rfl, ?_⟩
    · simp [Invoke, SetupSubcommand, SetArgs, Execute, h1, hl, Result.after, Name]
    · simp [executed]
  · obtain ⟨lines, hl⟩ := Subcommand.Usage_setup achildren
    have h1 := Subcommand.findChild_setup token rchildren
    rw [hA] at h1
    simp only [SetupSubcommand, Name] at h1
    rcases hrest with rfl | ⟨z, more, rfl, hz, hnone⟩
    · refine ⟨{ outcome := Outcome.returned 1,
                trace := [Event.SetArgs rn [prog, token], Event.Execute rn,
                          Event.Parse token [], Event.HasInvalidFlags token false,
                          Event.SetArgs token [token], Event.Execute token,
                          Event.LogMissing, Event.Usage lines] }, ?_, rfl, ?_⟩
      · simp [Invoke, SetupSubcommand, SetArgs, Execute, h1, hl, UnpackArgs, HasInvalidFlags,
          Result.after, Name]
      · simp [executed]
    · have hp : ∀ f : Glarg.FlagSet, f.Parse (z :: more) = none := fun f =>
        (FlagSet.Parse_cons_eq_none_iff f z more).2 hz
      have h2 := Subcommand.findChild_setup z achildren
      rw [hnone] at h2
      refine ⟨{ outcome := Outcome.returned 1,
                trace := [Event.SetArgs rn (prog :: token :: z :: more), Event.Execute rn,
                          Event.Parse token (z :: more), Event.HasInvalidFlags token false,
                          Event.SetArgs token (token :: z :: more), Event.Execute token,
                          Event.LogUnknown z, Event.Usage lines] }, ?_, rfl, ?_⟩
      · simp [Invoke, SetupSubcommand, SetArgs, Execute, h1, h2, hl, hp, UnpackArgs,
          HasInvalidFlags, Result.after, Name]
      · simp [executed]

/-- Claim C6, amended, at a concrete input: the tree `root -> {A -> {X, Y}, B}`
with `[prog, A, Z]`. -/
theorem C6_unknown_subcommand_returns_one_witness :
    ∃ r, Invoke (Subcommands none [] (str "root")
        [Subcommands none [] (str "A") [exampleNoOp (str "X") 0, exampleNoOp (str "Y") 7],
         exampleNoOp (str "B") 0]) (str "prog" :: str "A" :: [str "Z"]) = some r ∧
      r.outcome = Outcome.returned 1 ∧ executed r.trace = [str "root", str "A"] :=
  (C6_unknown_subcommand_returns_one none [] (str "root") (str "prog") (str "A")
    [Subcommands none [] (str "A") [exampleNoOp (str "X") 0, exampleNoOp (str "Y") 7],
     exampleNoOp (str "B") 0] [str "Z"]).2 none []
    [exampleNoOp (str "X") 0, exampleNoOp (str "Y") 7] (by rfl)
    (Or.inr ⟨str "Z", [], rfl, by decide, by rfl⟩)

/-- Whenever a gate fails during a run of `Execute`, at any depth, the run
returns 1. -/
theorem Subcommand.Execute_failedGate : ∀ (fuel : Nat) (v : Subcommand) (r : Result),
    Execute fuel v = some r → r.trace.any failedGate = true → r.outcome = Outcome.returned 1
  | 0, _, _, h, _ => by simp [Execute] at h
  | fuel + 1, SubcommandNoOp f name err invalid status, r, h, hg => by
    rw [Subcommand.Execute_noop] at h
    cases h
    simp [failedGate] at hg
  | fuel + 1, Subcommands f args name children, r, h, hg => by
    simp only [Execute] at h
    split at h
    · split at h <;> (cases h; simp [failedGate] at hg)
    · split at h
      · cases h; simp [failedGate] at hg
      · split at h <;> (cases h; simp [failedGate] at hg)
      · rename_i subcmd fs hfind
        split at h
        · cases h; simp [failedGate] at hg
        · cases subcmd with
          | Subcommands fc oldc cname cchildren =>
            simp only [UnpackArgs, HasInvalidFlags, SetArgs, Bool.false_eq_true, if_false] at h
            obtain ⟨r', hc, rfl⟩ := Option.map_eq_some'.1 h
            have hg' : r'.trace.any failedGate = true := by
              simpa [Result.after, failedGate, Name] using hg
            exact Subcommand.Execute_failedGate fuel _ r' hc hg'
          | SubcommandNoOp fx xn err invalid status =>
            cases err with
            | some e =>
              simp only [UnpackArgs] at h
              cases h
              rfl
            | none =>
              cases invalid with
              | true =>
                simp only [UnpackArgs, HasInvalidFlags, if_true] at h
                cases h
                rfl
              | false =>
                simp only [UnpackArgs, HasInvalidFlags, SetArgs, Bool.false_eq_true,
                  if_false] at h
                obtain ⟨r', hc, rfl⟩ := Option.map_eq_some'.1 h
                have hg' : r'.trace.any failedGate = true := by
                  simpa [Result.after, failedGate, Name] using hg
                exact Subcommand.Execute_failedGate fuel _ r' hc hg'

/-- On a matched child whose flag parsing has returned, the dispatch step of
`Execute` is the gate stage on the child, seen through its methods. -/
theorem Subcommand.Execute_eq_gates (fuel : Nat) (f : Option Glarg.FlagSet)
    (name self token : GoString) (rest : List GoString) (children : List Subcommand)
    (subcmd : Subcommand) (fs : Glarg.FlagSet)
    (hfind : findChild token children = Lookup.found subcmd fs)
    (hparse : fs.Parse rest = none) :
    Execute (fuel + 1) (Subcommands f (self :: token :: rest) name children) =
      (Execute.gates (subcmd.view fuel (token :: rest)) (token :: rest)).map
        (Result.after [Event.Execute name, Event.Parse subcmd.Name rest]) := by
  cases subcmd with
  | Subcommands fc oldc cname cchildren =>
    cases hc : Execute fuel (Subcommands fc (token :: rest) cname cchildren) <;>
      simp [Execute, hfind, hparse, Execute.gates, view, UnpackArgs, HasInvalidFlags, SetArgs,
        Name, Result.after, hc]
  | SubcommandNoOp fx xn err invalid status =>
    cases err with
    | some e =>
      simp [Execute, hfind, hparse, Execute.gates, view, UnpackArgs, Name, Result.after]
    | none =>
      cases invalid with
      | true =>
        simp [Execute, hfind, hparse, Execute.gates, view, UnpackArgs, HasInvalidFlags, Name,
          Result.after]
      | false =>
        cases hc : Execute fuel (SubcommandNoOp fx xn none false status) <;>
          simp [Execute, hfind, hparse, Execute.gates, view, UnpackArgs, HasInvalidFlags,
            SetArgs, Name, Result.after, hc]

/-- Claim C7 as stated fails when the tokens after the matched child start with
a flag token: the child `bad` is matched, its unpacking step reports an error and
its invalid-flags predicate is true, but with `[prog, bad, -h]` the dispatch step
does not return 1. The flag set of `bad` parses `-h` first and ends the process
with status 0; neither gate is consulted. -/
theorem C7_gates_counterexample :
    (SubcommandNoOp none (str "bad") (some ⟨str "boom"⟩) true 0).UnpackArgs
      = some (some ⟨str "boom"⟩) ∧
    (SubcommandNoOp none (str "bad") (some ⟨str "boom"⟩) true 0).HasInvalidFlags = true ∧
    Invoke (Subcommands none [] (str "root")
        [SubcommandNoOp none (str "bad") (some ⟨str "boom"⟩) true 0])
      [str "prog", str "bad", str "-h"] =
      some { outcome := Outcome.exited 0,
             trace := [Event.SetArgs (str "root") [str "prog", str "bad", str "-h"],
                       Event.Execute (str "root"), Event.Parse (str "bad") [str "-h"]] } := by
  decide

/-- Claim C7, amended. Take a dispatch step of a `Subcommands` node with the scope
`self :: token :: rest` in which the child `subcmd` is matched and its flag
parsing has returned. If `subcmd` has the unpacking capability and unpacking
reports an error, the step returns 1; otherwise, if unpacking reports no error
and the invalid-flags predicate is true, the step returns 1; in both cases the
events are the node's own entry, the parsing and the gates, so the execution
entry point of `subcmd` is not invoked. In general the step is the gate stage on
the matched child, reached after the node's entry and the parsing.

And for every matched child `m`, of whatever type that implements `Subcommand`,
the gate stage returns 1 without invoking the execution entry point of `m` when
unpacking reports an error, and otherwise when the invalid-flags predicate is
true, be it after an unpacking that reported no error or for a child without
the unpacking capability. For a child without the unpacking capability whose
predicate is false, the predicate is consulted all the same, without a call of
`UnpackArgs`, before the child is handed its scope and executed. -/
theorem C7_gates_after_flag_parsing (fuel : Nat) (f : Option Glarg.FlagSet)
    (name self token : GoString) (rest : List GoString) (children : List Subcommand)
    (subcmd : Subcommand) (fs : Glarg.FlagSet) (m : Matched) (myArgs : List GoString) :
    (findChild token children = Lookup.found subcmd fs → fs.Parse rest = none →
      (∀ err, subcmd.UnpackArgs = some (some err) →
        Execute (fuel + 1) (Subcommands f (self :: token :: rest) name children) =
          some { outcome := Outcome.returned 1,
                 trace := [Event.Execute name, Event.Parse subcmd.Name rest,
                           Event.UnpackArgs subcmd.Name (some err), Event.LogInvalid err,
                           Event.PrintDefaults subcmd.Name] }) ∧
      (subcmd.UnpackArgs = some none → subcmd.HasInvalidFlags = true →
        Execute (fuel + 1) (Subcommands f (self :: token :: rest) name children) =
          some { outcome := Outcome.returned 1,
                 trace := [Event.Execute name, Event.Parse subcmd.Name rest,
                           Event.UnpackArgs subcmd.Name none,
                           Event.HasInvalidFlags subcmd.Name true,
                           Event.PrintDefaults subcmd.Name] }) ∧
      Execute (fuel + 1) (Subcommands f (self :: token :: rest) name children) =
        (Execute.gates (subcmd.view fuel (token :: rest)) (token :: rest)).map
          (Result.after [Event.Execute name, Event.Parse subcmd.Name rest])) ∧
    (∀ err, m.UnpackArgs = some (some err) →
      Execute.gates m myArgs =
        some { outcome := Outcome.returned 1,
               trace := [Event.UnpackArgs m.Name (some err), Event.LogInvalid err,
                         Event.PrintDefaults m.Name] }) ∧
    (m.UnpackArgs = some none → m.HasInvalidFlags = true →
      Execute.gates m myArgs =
        some { outcome := Outcome.returned 1,
               trace := [Event.UnpackArgs m.Name none, Event.HasInvalidFlags m.Name true,
                         Event.PrintDefaults m.Name] }) ∧
    (m.UnpackArgs = none → m.HasInvalidFlags = true →
      Execute.gates m myArgs =
        some { outcome := Outcome.returned 1,
               trace := [Event.HasInvalidFlags m.Name true, Event.PrintDefaults m.Name] }) ∧
    (m.UnpackArgs = none → m.HasInvalidFlags = false →
      Execute.gates m myArgs =
        m.Execute.map (Result.after (Event.HasInvalidFlags m.Name false ::
          (if m.SetArgs then [Event.SetArgs m.Name myArgs] else [])))) := by
  refine ⟨fun hfind hparse => ?_, fun err hu => ?_, fun hu hi => ?_, fun hu hi => ?_,
    fun hu hi => ?_⟩
  · have hb := Subcommand.Execute_eq_gates fuel f name self token rest children subcmd fs
      hfind hparse
    refine ⟨fun err hu => ?_, fun hu hi => ?_, hb⟩
    · rw [hb]
      simp [Execute.gates, view, hu, Result.after]
    · rw [hb]
      simp [Execute.gates, view, hu, hi, Result.after]
  · simp [Execute.gates, hu]
  · simp [Execute.gates, hu, hi]
  · simp [Execute.gates, hu, hi]
  · cases hs : m.SetArgs <;> simp [Execute.gates, hu, hi, hs]

/-- Claim C7, amended, at concrete inputs: the step of the node `root` on its
matched child `bad`, whose unpacking reports an error and which is followed by the
token `more`, returns 1 without executing `bad`; and a child without the
unpacking capability whose invalid-flags predicate is true is stopped by the gate
stage. -/
theorem C7_gates_after_flag_parsing_witness :
    Execute (0 + 1) (Subcommands none (str "prog" :: str "bad" :: [str "more"]) (str "root")
        [SubcommandNoOp (some (NewFlagSet (str "bad"))) (str "bad") (some ⟨str "boom"⟩)
          false 0]) =
      some { outcome := Outcome.returned 1,
             trace := [Event.Execute (str "root"),
               Event.Parse (SubcommandNoOp (some (NewFlagSet (str "bad"))) (str "bad")
                 (some ⟨str "boom"⟩) false 0).Name [str "more"],
               Event.UnpackArgs (SubcommandNoOp (some (NewFlagSet (str "bad"))) (str "bad")
                 (some ⟨str "boom"⟩) false 0).Name (some ⟨str "boom"⟩),
               Event.LogInvalid ⟨str "boom"⟩,
               Event.PrintDefaults (SubcommandNoOp (some (NewFlagSet (str "bad"))) (str "bad")
                 (some ⟨str "boom"⟩) false 0).Name] } ∧
    Execute.gates { Name := str "x", UnpackArgs := none, HasInvalidFlags := true, SetArgs := true,
                    Execute := some { outcome := Outcome.returned 0,
                                      trace := [Event.Execute (str "x")] } } [str "x"] =
      some { outcome := Outcome.returned 1,
             trace := [Event.HasInvalidFlags (str "x") true, Event.PrintDefaults (str "x")] } :=
  ⟨((C7_gates_after_flag_parsing 0 none (str "root") (str "prog") (str "bad") [str "more"]
      [SubcommandNoOp (some (NewFlagSet (str "bad"))) (str "bad") (some ⟨str "boom"⟩) false 0]
      (SubcommandNoOp (some (NewFlagSet (str "bad"))) (str "bad") (some ⟨str "boom"⟩) false 0)
      (NewFlagSet (str "bad"))
      { Name := str "x", UnpackArgs := none, HasInvalidFlags := true, SetArgs := true,
        Execute := some { outcome := Outcome.returned 0, trace := [Event.Execute (str "x")] } }
      [str "x"]).1 (by rfl) (by decide)).1 ⟨str "boom"⟩ rfl,
   (C7_gates_after_flag_parsing 0 none (str "root") (str "prog") (str "bad") [str "more"]
      [SubcommandNoOp (some (NewFlagSet (str "bad"))) (str "bad") (some ⟨str "boom"⟩) false 0]
      (SubcommandNoOp (some (NewFlagSet (str "bad"))) (str "bad") (some ⟨str "boom"⟩) false 0)
      (NewFlagSet (str "bad"))
      { Name := str "x", UnpackArgs := none, HasInvalidFlags := true, SetArgs := true,
        Execute := some { outcome := Outcome.returned 0, trace := [Event.Execute (str "x")] } }
      [str "x"]).2.2.2.1 rfl rfl⟩

/-- Claim C8 as stated fails for the command passed to `Invoke` itself: a no-op
root whose invalid-flags predicate is true and whose execute status is 0 is
executed without any check, and `Invoke` returns 0; so does a no-op root whose
unpacking step reports an error. Below the root, a matched child is checked only
once its flag parsing has returned: with `[prog, bad, -h]` the flag set of the
child `bad`, whose invalid-flags predicate is true, ends the process with
status 0 before the predicate is consulted. -/
theorem C8_root_not_validated_counterexample :
    (SubcommandNoOp none (str "cmd") none true 0).HasInvalidFlags = true ∧
    Invoke (SubcommandNoOp none (str "cmd") none true 0) [str "prog"] =
      some { outcome := Outcome.returned 0, trace := [Event.Execute (str "cmd")] } ∧
    (SubcommandNoOp none (str "cmd") (some ⟨str "boom"⟩) false 0).UnpackArgs =
      some (some ⟨str "boom"⟩) ∧
    Invoke (SubcommandNoOp none (str "cmd") (some ⟨str "boom"⟩) false 0) [str "prog"] =
      some { outcome := Outcome.returned 0, trace := [Event.Execute (str "cmd")] } ∧
    Invoke (Subcommands none [] (str "root") [SubcommandNoOp none (str "bad") none true 0])
      [str "prog", str "bad", str "-h"] =
      some { outcome := Outcome.exited 0,
             trace := [Event.SetArgs (str "root") [str "prog", str "bad", str "-h"],
                       Event.Execute (str "root"), Event.Parse (str "bad") [str "-h"]] } := by
  decide

theorem Subcommand.Name_of_firstNamed {token : GoString} {children : List Subcommand}
    {x : Subcommand} (h : firstNamed token children = some x) : x.Name = token := by
  have := List.find?_some h
  simpa using this

/-- A command that the dispatch selects and whose gates fail makes `Execute` on
the node return 1, whatever the depth at which the command is selected. -/
theorem Subcommand.Execute_of_Selects {node x : Subcommand} {scope : List GoString}
    (hsel : Selects node scope x) :
    ((∃ e, x.UnpackArgs = some (some e)) ∨ x.HasInvalidFlags = true) →
    ∀ (fuel : Nat) (w : Subcommand), scope.length < fuel →
      node.SetupSubcommand.SetArgs scope = some w →
      ∃ r, Execute fuel w = some r ∧ r.outcome = Outcome.returned 1 := by
  induction hsel with
  | child f old name self token rest children x hfind hparse =>
    intro hfail fuel w hfuel hw
    obtain ⟨k, rfl⟩ : ∃ k, fuel = k + 1 := ⟨fuel - 1, by simp at hfuel; omega⟩
    simp only [SetupSubcommand, SetArgs, Option.some.injEq] at hw
    subst hw
    have hx := Subcommand.Name_of_firstNamed hfind
    have h1 := Subcommand.findChild_setup token children
    rw [hfind] at h1
    have hp : (NewFlagSet x.Name).Parse rest = none := by rw [hx]; exact hparse
    rw [Subcommand.Execute_eq_gates k _ name self token rest _ _ _ h1 hp]
    cases x with
    | Subcommands fc oldc cname cchildren => simp [UnpackArgs, HasInvalidFlags] at hfail
    | SubcommandNoOp fx xn err invalid status =>
      cases err with
      | some e => simp [Execute.gates, view, SetupSubcommand, UnpackArgs, Result.after]
      | none =>
        cases invalid with
        | true =>
          simp [Execute.gates, view, SetupSubcommand, UnpackArgs, HasInvalidFlags, Result.after]
        | false => simp [UnpackArgs, HasInvalidFlags] at hfail
  | deeper f fc old oldc name self token rest children cchildren x hfind hparse _ ih =>
    intro hfail fuel w hfuel hw
    obtain ⟨k, rfl⟩ : ∃ k, fuel = k + 1 := ⟨fuel - 1, by simp at hfuel; omega⟩
    simp only [SetupSubcommand, SetArgs, Option.some.injEq] at hw
    subst hw
    have h1 := Subcommand.findChild_setup token children
    rw [hfind] at h1
    simp only [Name] at h1
    obtain ⟨r, hr, hone⟩ := ih hfail k
      (Subcommands (some (NewFlagSet token)) (token :: rest) token
        (SetupSubcommand.children cchildren))
      (by simp at hfuel ⊢; omega) (by simp [SetupSubcommand, SetArgs])
    rw [Subcommand.Execute_eq_gates k _ name self token rest _ _ _ h1 hparse]
    refine ⟨Result.after [Event.Execute name, Event.Parse token rest,
      Event.HasInvalidFlags token false, Event.SetArgs token (token :: rest)] r, ?_, ?_⟩
    · simp [Execute.gates, view, SetupSubcommand, UnpackArgs, HasInvalidFlags, SetArgs, hr,
        Name, Result.after]
    · simpa [Result.after] using hone

/-- Claim C8, amended. For every root `Subcommands` node, every argument list and
every command `x` whose execution entry point the invocation would reach below
the root, at any depth (`x` is selected as matched child by the dispatch, and
the flag parsing of every child matched on the way has returned): if the
unpacking step of `x` reports an error or the invalid-flags predicate of `x` is
true, `Invoke` returns the non-zero status 1. -/
theorem C8_failed_gate_returns_one (f : Option Glarg.FlagSet) (old : List GoString)
    (name : GoString) (children : List Subcommand) (args : List GoString) (x : Subcommand)
    (hsel : Selects (Subcommands f old name children) args x)
    (hfail : (∃ e, x.UnpackArgs = some (some e)) ∨ x.HasInvalidFlags = true) :
    ∃ r, Invoke (Subcommands f old name children) args = some r ∧
      r.outcome = Outcome.returned 1 := by
  obtain ⟨r, hr, hone⟩ := Subcommand.Execute_of_Selects hsel hfail (args.length + 1)
    (Subcommands (some (NewFlagSet name)) args name (SetupSubcommand.children children))
    (by omega) (by simp [SetupSubcommand, SetArgs])
  exact ⟨Result.after [Event.SetArgs name args] r,
    by simp [Invoke, SetupSubcommand, SetArgs, hr, Name], by simpa [Result.after] using hone⟩

/-- Claim C8, amended, at a concrete input: in the tree `root -> A -> bad` the
command `bad`, two levels below the root, has a true invalid-flags predicate and
the execute status 0; `Invoke` with `[prog, A, bad, more]` returns 1. -/
theorem C8_failed_gate_returns_one_witness :
    ∃ r, Invoke (Subcommands none [] (str "root")
        [Subcommands none [] (str "A") [SubcommandNoOp none (str "bad") none true 0]])
      [str "prog", str "A", str "bad", str "more"] = some r ∧
      r.outcome = Outcome.returned 1 :=
  C8_failed_gate_returns_one none [] (str "root")
    [Subcommands none [] (str "A") [SubcommandNoOp none (str "bad") none true 0]]
    [str "prog", str "A", str "bad", str "more"] (SubcommandNoOp none (str "bad") none true 0)
    (Selects.deeper none none [] [] (str "root") (str "prog") (str "A")
      [str "bad", str "more"]
      [Subcommands none [] (str "A") [SubcommandNoOp none (str "bad") none true 0]]
      [SubcommandNoOp none (str "bad") none true 0]
      (SubcommandNoOp none (str "bad") none true 0) (by rfl) (by decide)
      (Selects.child none [] (str "A") (str "A") (str "bad") [str "more"]
        [SubcommandNoOp none (str "bad") none true 0]
        (SubcommandNoOp none (str "bad") none true 0) (by rfl) (by decide)))
    (Or.inr rfl)

/-- Claim C9. `Invoke` sets the root up, hands a root that accepts argument scope
(a `Subcommands` node) the full argument list, program name included, and ends
exactly as the root's execution entry point does: for a `Subcommands` root the
result is the result `r` of `Execute` on the node with a fresh flag set, the scope
`args` and the children set up, reached after the call of `SetArgs`; and for a
root that is a single no-op command, `Invoke` returns the configured execute
status of that command for every argument list. -/
theorem C9_invoke_returns_root_result (f : Option Glarg.FlagSet) (old : List GoString)
    (name : GoString) (children : List Subcommand) (err : Option Error) (invalid : Bool)
    (status : Int) (args : List GoString) :
    (∃ r, Execute (args.length + 1)
        (Subcommands (some (NewFlagSet name)) args name (SetupSubcommand.children children))
          = some r ∧
      Invoke (Subcommands f old name children) args
          = some { outcome := r.outcome, trace := Event.SetArgs name args :: r.trace }) ∧
    Invoke (SubcommandNoOp f name err invalid status) args =
      some { outcome := Outcome.returned status, trace := [Event.Execute name] } := by
  constructor
  · obtain ⟨r, hr⟩ := Subcommand.Execute_isSome (args.length + 1)
      (Subcommands (some (NewFlagSet name)) args name (SetupSubcommand.children children))
      (by simp [scopeLength])
    exact ⟨r, hr, by simp [Invoke, SetupSubcommand, SetArgs, hr, Name, Result.after]⟩
  · simp [Invoke, SetupSubcommand, SetArgs, Execute]

/-- The child that the loop finds carries the requested name in its flag set. -/
theorem Subcommand.findChild_found (token : GoString) : ∀ (vs : List Subcommand)
    (v : Subcommand) (fs : Glarg.FlagSet),
    findChild token vs = Lookup.found v fs → v.FlagSet = some fs ∧ fs.name = token
  | [], _, _, h => by simp [findChild] at h
  | w :: ws, v, fs, h => by
    cases hw : w.FlagSet with
    | none => simp [findChild, hw] at h
    | some g =>
      by_cases hn : g.name = token
      · simp [findChild, hw, hn] at h
        obtain ⟨rfl, rfl⟩ := h
        exact ⟨hw, hn⟩
      · simp [findChild, hw, hn] at h
        exact Subcommand.findChild_found token ws v fs h

/-- Claim C10 as stated fails when the token after the matched child is a flag
token: the node `root` holds the scope `[prog, A, -v]` and its matched child `A`
accepts argument scope, but `A` receives nothing. The flag set of `A` parses
`-v`, which is not a defined flag, and ends the process with status 2 before
`SetArgs` is called: the flag is not kept. -/
theorem C10_scope_counterexample :
    Invoke (Subcommands none [] (str "root")
        [Subcommands none [] (str "A") [exampleNoOp (str "X") 0, exampleNoOp (str "Y") 7],
         exampleNoOp (str "B") 0])
      [str "prog", str "A", str "-v"] =
      some { outcome := Outcome.exited 2,
             trace := [Event.SetArgs (str "root") [str "prog", str "A", str "-v"],
                       Event.Execute (str "root"), Event.Parse (str "A") [str "-v"]] } ∧
    Event.SetArgs (str "A") [str "A", str "-v"] ∉
      [Event.SetArgs (str "root") [str "prog", str "A", str "-v"],
       Event.Execute (str "root"), Event.Parse (str "A") [str "-v"]] := by
  decide

/-- Claim C10, amended. A dispatch step of a `Subcommands` node whose scope `args`
has at least two tokens and whose matched child accepts argument scope (it is
itself a `Subcommands` node): once the flag parsing of the child has returned,
the child receives by `SetArgs`, and runs its execution entry point on, exactly
`args` with its first token removed. That scope starts with the child's own name,
keeps every later token, is a suffix of `args` and is one token shorter. When the
flag parsing ends the process instead, the child receives nothing. -/
theorem C10_scope_handed_down (fuel : Nat) (f fc : Option Glarg.FlagSet)
    (name cname : GoString) (args oldc : List GoString) (children cchildren : List Subcommand)
    (fs : Glarg.FlagSet) (hlen : 2 ≤ args.length)
    (hfind : findChild ((args.drop 1).headD []) children =
      Lookup.found (Subcommands fc oldc cname cchildren) fs) :
    (fs.Parse (args.drop 2) = none →
      Execute (fuel + 1) (Subcommands f args name children) =
        (Execute fuel (Subcommands fc (args.drop 1) cname cchildren)).map
          (Result.after [Event.Execute name, Event.Parse cname (args.drop 2),
            Event.HasInvalidFlags cname false, Event.SetArgs cname (args.drop 1)])) ∧
    (∀ code, fs.Parse (args.drop 2) = some code →
      Execute (fuel + 1) (Subcommands f args name children) =
        some { outcome := Outcome.exited code,
               trace := [Event.Execute name, Event.Parse cname (args.drop 2)] }) ∧
    (args.drop 1).head? = some fs.name ∧
    (args.drop 1).drop 1 = args.drop 2 ∧
    args.drop 1 <:+ args ∧
    (args.drop 1).length + 1 = args.length := by
  have hname := (Subcommand.findChild_found _ _ _ _ hfind).2
  match args, hlen with
  | self :: token :: rest, _ =>
    simp only [List.drop_succ_cons, List.drop_zero, List.headD_cons] at hfind hname
    refine ⟨fun hp => ?_, fun code hp => ?_, by simp [hname], by simp,
      List.suffix_cons _ _, by simp⟩
    · simp only [List.drop_succ_cons, List.drop_zero] at hp
      simp [Execute, hfind, hp, UnpackArgs, HasInvalidFlags, SetArgs, Name]
    · simp only [List.drop_succ_cons, List.drop_zero] at hp
      simp [Execute, hfind, hp, Name]

/-- Claim C10, amended, at a concrete input: the node `root` with the scope
`[prog, A, X, -v]` hands `[A, X, -v]` to its child `A`. -/
theorem C10_scope_handed_down_witness :
    Execute (3 + 1) (Subcommands none [str "prog", str "A", str "X", str "-v"] (str "root")
        [Subcommands (some (NewFlagSet (str "A"))) [] (str "A") []]) =
      (Execute 3 (Subcommands (some (NewFlagSet (str "A")))
          ([str "prog", str "A", str "X", str "-v"].drop 1) (str "A") [])).map
        (Result.after [Event.Execute (str "root"),
          Event.Parse (str "A") ([str "prog", str "A", str "X", str "-v"].drop 2),
          Event.HasInvalidFlags (str "A") false,
          Event.SetArgs (str "A") ([str "prog", str "A", str "X", str "-v"].drop 1)]) :=
  (C10_scope_handed_down 3 none (some (NewFlagSet (str "A"))) (str "root") (str "A")
    [str "prog", str "A", str "X", str "-v"] [] [Subcommands (some (NewFlagSet (str "A"))) []
      (str "A") []] [] (NewFlagSet (str "A")) (by decide) (by rfl)).1 (by decide)

/-- The loop of `handleInterupt` is never left: whatever cases its `select`
statements take, the function has not returned. -/
theorem handleInterupt.foldl_not_returned : ∀ (taken : List SelectCase) (st : Listener),
    st.returned = false → (taken.foldl handleInterupt.step st).returned = false
  | [], _, h => h
  | ev :: rest, st, h => by
    apply handleInterupt.foldl_not_returned rest
    cases ev <;> simp [handleInterupt.step, h]

theorem handleInterupt_not_returned (taken : List SelectCase) :
    (handleInterupt taken).returned = false :=
  handleInterupt.foldl_not_returned taken _ rfl

/-- Claim C17 fails on the code. After the context reports done, `handleInterupt`
has not returned; and when an interrupt follows, the listener is still there to
receive it and calls `cancel()` once more. The `break` under `case <-ctx.Done()`
leaves the `select` statement only, so the `for` loop never ends. -/
theorem C17_listener_runs_on_after_done :
    handleInterupt [SelectCase.ctxDone] = { returned := false, cancels := 0 } ∧
    handleInterupt [SelectCase.ctxDone, SelectCase.sigChan]
      = { returned := false, cancels := 1 } ∧
    handleInterupt [SelectCase.sigChan, SelectCase.ctxDone, SelectCase.ctxDone,
        SelectCase.sigChan] = { returned := false, cancels := 2 } := by
  decide

mutual
theorem isSetUp_SetupSubcommand : ∀ (v : Subcommand), isSetUp v.SetupSubcommand = true
  | Subcommands _ _ _ children => by
    simp [SetupSubcommand, isSetUp, isSetUp_SetupSubcommand_children children]
  | SubcommandNoOp _ _ _ _ _ => by simp [SetupSubcommand, isSetUp]
theorem isSetUp_SetupSubcommand_children : ∀ (vs : List Subcommand),
    isSetUp.children (SetupSubcommand.children vs) = true
  | [] => by simp [SetupSubcommand.children, isSetUp.children]
  | v :: rest => by
    simp [SetupSubcommand.children, isSetUp.children, isSetUp_SetupSubcommand v,
      isSetUp_SetupSubcommand_children rest]
end

mutual
theorem stripFlagSets_SetupSubcommand : ∀ (v : Subcommand),
    stripFlagSets v.SetupSubcommand = stripFlagSets v
  | Subcommands _ _ _ children => by
    simp [SetupSubcommand, stripFlagSets, stripFlagSets_SetupSubcommand_children children]
  | SubcommandNoOp _ _ _ _ _ => by simp [SetupSubcommand, stripFlagSets]
theorem stripFlagSets_SetupSubcommand_children : ∀ (vs : List Subcommand),
    stripFlagSets.children (SetupSubcommand.children vs) = stripFlagSets.children vs
  | [] => by simp [SetupSubcommand.children]
  | v :: rest => by
    simp [SetupSubcommand.children, stripFlagSets.children, stripFlagSets_SetupSubcommand v,
      stripFlagSets_SetupSubcommand_children rest]
end

/-- On a node whose children are set up, `Execute` never panics: neither the
name matching nor the usage listing meets a nil flag set, at any depth. -/
theorem Subcommand.Execute_setup_not_panicked : ∀ (fuel : Nat) (f : Option Glarg.FlagSet)
    (args : List GoString) (name : GoString) (vs : List Subcommand) (r : Result),
    Execute fuel (Subcommands f args name (SetupSubcommand.children vs)) = some r →
    r.outcome ≠ Outcome.panicked
  | 0, _, _, _, _, _, h => by simp [Execute] at h
  | fuel + 1, f, args, name, vs, r, h => by
    obtain ⟨lines, hl⟩ := Subcommand.Usage_setup vs
    have hf := Subcommand.findChild_setup ((args.drop 1).headD []) vs
    simp only [Execute, hl] at h
    split at h
    · cases h
      simp
    · cases hn : firstNamed ((args.drop 1).headD []) vs with
      | none =>
        rw [hn] at hf
        simp only [hf] at h
        cases h
        simp
      | some w =>
        rw [hn] at hf
        simp only [hf] at h
        split at h
        · cases h
          simp
        · cases w with
          | Subcommands fw aw nw cw =>
            simp only [SetupSubcommand, UnpackArgs, HasInvalidFlags, SetArgs,
              Bool.false_eq_true, if_false] at h
            obtain ⟨r', hc, rfl⟩ := Option.map_eq_some'.1 h
            have := Subcommand.Execute_setup_not_panicked fuel _ _ _ cw r' hc
            simpa [Result.after] using this
          | SubcommandNoOp fx xn err invalid status =>
            cases err with
            | some e =>
              simp only [SetupSubcommand, UnpackArgs] at h
              cases h
              simp
            | none =>
              cases invalid with
              | true =>
                simp only [SetupSubcommand, UnpackArgs, HasInvalidFlags, if_true] at h
                cases h
                simp
              | false =>
                simp only [SetupSubcommand, UnpackArgs, HasInvalidFlags, SetArgs,
                  Bool.false_eq_true, if_false] at h
                obtain ⟨r', hc, rfl⟩ := Option.map_eq_some'.1 h
                cases fuel with
                | zero => simp [Execute] at hc
                | succ k =>
                  rw [Subcommand.Execute_noop] at hc
                  cases hc
                  simp [Result.after]

/-- Claim C18. For every command tree, after `SetupSubcommand` on the root every
node of the tree, the root, the inner nodes and the leaves, has a flag set whose
name is the node's `Name`; apart from the flag sets the tree is unchanged, so the
names and the order of the children are as before; and every invocation ends in
an outcome that is not a panic: neither the name matching nor the usage listing
of the dispatch meets a node without a flag set. -/
theorem C18_setup_invariant (cmd : Subcommand) :
    isSetUp cmd.SetupSubcommand = true ∧
    stripFlagSets cmd.SetupSubcommand = stripFlagSets cmd ∧
    ∀ args : List GoString, ∃ r, Invoke cmd args = some r ∧ r.outcome ≠ Outcome.panicked := by
  refine ⟨isSetUp_SetupSubcommand cmd, stripFlagSets_SetupSubcommand cmd, fun args => ?_⟩
  cases cmd with
  | SubcommandNoOp f name err invalid status =>
    exact ⟨{ outcome := Outcome.returned status, trace := [Event.Execute name] },
      by simp [Invoke, SetupSubcommand, SetArgs, Execute], by simp⟩
  | Subcommands f old name children =>
    obtain ⟨r, hr⟩ := Subcommand.Execute_isSome (args.length + 1)
      (Subcommands (some (NewFlagSet name)) args name (SetupSubcommand.children children))
      (by simp [scopeLength])
    have hnp := Subcommand.Execute_setup_not_panicked _ _ _ _ _ r hr
    exact ⟨Result.after [Event.SetArgs name args] r,
      by simp [Invoke, SetupSubcommand, SetArgs, hr, Name], by simpa [Result.after] using hnp⟩

end SubcommandTheorems

end Glarg
